import Mathlib

/-!
# mscolor: RGB <=> HSV colour conversion

A shallow embedding of `src/mscolor/color.go` and the properties of its
conversions.

Modelling conventions.

* `uint8` values are natural numbers; a struct field of type `uint8` holds a
  number below 256, and the narrowing conversion `uint8(i)` of an `int` is
  `toUint8`, reduction modulo 256.
* `int` values are integers (`Int`), taken without a bound: the conversion of
  a `float64` beyond the range of `int` is not modelled. `%` on `int` is Go's
  truncated remainder, `Int.tmod`.
* `float64` values are rationals: every operation is carried out exactly. The
  only place where the source leaves the finite numbers is the division by
  `max - min` in `MakeHSV`; there the hue is an `Option ℚ`, with `none` for
  not-a-number (see `fdiv`).
* The two helpers whose own properties depend on the rounding of a `float64`
  sum, `round` and `regularize`, are given a second time with that rounding:
  `round64` and `regularize64`, over `fl64`, the rounding of a real number to
  `float64`. What is said of rounding to the nearest integer and of the floored
  modulo is said of these.
* A method with a pointer receiver that mutates the receiver and returns it is
  a function from the old struct value to the new one.
-/

namespace mscolor

/-! ## Data model -/

/-- The struct `Color` (color.go, lines 9-18). -/
structure Color where
  R : Nat
  G : Nat
  B : Nat
  H : Int
  S : ℚ
  V : ℚ
  A : Nat
deriving DecidableEq, Repr

/-- The conversion `uint8(i)` of an `int`: the low eight bits. -/
def toUint8 (z : Int) : Nat := (z % 256).toNat

/-! ## Helpers (color.go, lines 128-169) -/

/-- The function `maxVal` (lines 128-136): the largest of the values, starting
the scan from `uint8(0)`, converted to `float64`. -/
def maxVal (vals : List Nat) : ℚ :=
  ((vals.foldl (fun t i => if t < i then i else t) 0 : Nat) : ℚ)

/-- The function `minVal` (lines 138-146): the smallest of the values, starting
the scan from `vals[0]`, converted to `float64`. Indexing `vals[0]` needs a
non-empty argument list, which is the hypothesis `h`. -/
def minVal (vals : List Nat) (h : vals ≠ []) : ℚ :=
  ((vals.foldl (fun t i => if t > i then i else t) (vals.head h) : Nat) : ℚ)

/-- Floating-point division as used for the hue: `0 / 0` is not-a-number
(`none`). In `MakeHSV` the divisor `max - min` is zero only when all three
channels are equal, and then the dividend is zero as well (see
`MakeHSV_divisor_zero`), so the quotient of a non-zero number by zero, an infinity,
never arises there. -/
def fdiv (x y : ℚ) : Option ℚ := if y = 0 then none else some (x / y)

/-- The loop of `regularize` (lines 153-161): add 360 until `H >= 0`, the
addition being exact; `regularizeIter64` has the addition in `float64`. -/
def regularizeLoop (H : ℚ) : ℚ :=
  if 0 ≤ H then H else regularizeLoop (H + 360)
termination_by (⌈-H / 360⌉).toNat
decreasing_by
  have hH : H < 0 := not_le.mp ‹_›
  have h1 : ⌈-(H + 360) / 360⌉ = ⌈-H / 360⌉ - 1 := by
    rw [← Int.ceil_sub_one]; congr 1; ring
  have h2 : 0 < ⌈-H / 360⌉ :=
    Int.ceil_pos.mpr (by linarith [div_pos (neg_pos.mpr hH) (by norm_num : (0:ℚ) < 360)])
  rw [h1]
  omega

/-- The function `regularize` (lines 149-162): not-a-number becomes 0, any
other hue is turned by 360 degrees until it is non-negative. -/
def regularize (hue : Option ℚ) : ℚ :=
  match hue with
  | none => 0
  | some h => regularizeLoop h

/-- The loop of `regularize` (lines 154-160) run for at most `fuel` iterations,
with the number of times `H = H + 360` was executed: `none` when the bound is
reached before `H >= 0` holds. -/
def regularizeIter : Nat → ℚ → Option (ℚ × Nat)
  | 0, _ => none
  | fuel + 1, H =>
    if 0 ≤ H then some (H, 0)
    else (regularizeIter fuel (H + 360)).map (fun p => (p.1, p.2 + 1))

/-- The function `round` (lines 164-169), the addition being exact; `round64`
has the addition in `float64`. -/
def round (n : ℚ) : Int :=
  if n < 0 then ⌈n - 1/2⌉ else ⌊n + 1/2⌋

/-! ## The helpers `round` and `regularize` in `float64` -/

/-- Rounding of a rational to the nearest integer, ties to the even one. -/
def roundEven (q : ℚ) : Int :=
  if q - (⌊q⌋ : Int) < 1/2 then ⌊q⌋
  else if 1/2 < q - (⌊q⌋ : Int) then ⌊q⌋ + 1
  else if ⌊q⌋ % 2 = 0 then ⌊q⌋ else ⌊q⌋ + 1

/-- The exponent of the binade of a non-zero number in `float64`: the integer
`e` with `2^e ≤ |x| < 2^(e+1)`, and -1022 in the subnormal range. -/
def expo64 (x : ℚ) : Int := max (Int.log 2 |x|) (-1022)

/-- The `float64` value of a real number: the nearest multiple of the unit in
the last place `2^(e-52)` of its binade, ties to even (IEEE 754 binary64, round
to nearest even). Overflow to an infinity, from `2^1024` on, is not modelled;
neither sum below comes near it. -/
def fl64 (x : ℚ) : ℚ :=
  if x = 0 then 0 else (roundEven (x / 2 ^ (expo64 x - 52)) : ℚ) * 2 ^ (expo64 x - 52)

/-- The function `round` (lines 164-169) with its addition in `float64`:
`n - 0.5` and `n + 0.5` are rounded to `float64` before `math.Ceil` and
`math.Floor`. The conversion to `int` is exact inside the range of `int`; beyond
it Go leaves the result to the implementation, and it is not modelled. -/
def round64 (n : ℚ) : Int :=
  if n < 0 then ⌈fl64 (n - 1/2)⌉ else ⌊fl64 (n + 1/2)⌋

/-- The loop of `regularize` (lines 154-160) with its addition in `float64`,
run for at most `fuel` iterations: `none` when the bound is reached before
`H >= 0` holds. -/
def regularizeIter64 : Nat → ℚ → Option ℚ
  | 0, _ => none
  | fuel + 1, H => if 0 ≤ H then some H else regularizeIter64 fuel (fl64 (H + 360))

/-- The function `regularize` (lines 149-162) with its addition in `float64`
and a bound on the iterations of its loop. -/
def regularize64 (fuel : Nat) (hue : Option ℚ) : Option ℚ :=
  match hue with
  | none => some 0
  | some h => regularizeIter64 fuel h

/-! ## Conversions (color.go, lines 42-126) -/

/-- The method `MakeRGB` (lines 43-91). The `switch` has no default branch: if
no case matches, the struct is returned as it is. -/
def MakeRGB (c : Color) : Color :=
  if c.S = 0 then
    let v := toUint8 (round (c.V * 255))
    { c with R := v, G := v, B := v }
  else
    let H : ℚ := (c.H : ℚ)
    let S := c.S
    let Hi : Int := ⌊H / 60⌋
    let F := (H / 60) - (Hi : ℚ)
    let M := toUint8 (round ((c.V * (1 - S)) * 255))
    let N := toUint8 (round ((c.V * (1 - (S * F))) * 255))
    let K := toUint8 (round ((c.V * (1 - (S * (1 - F)))) * 255))
    let V := toUint8 (round (c.V * 255))
    if Hi = 0 then { c with R := V, G := K, B := M }
    else if Hi = 1 then { c with R := N, G := V, B := M }
    else if Hi = 2 then { c with R := M, G := V, B := K }
    else if Hi = 3 then { c with R := M, G := N, B := V }
    else if Hi = 4 then { c with R := K, G := M, B := V }
    else if Hi = 5 then { c with R := V, G := M, B := N }
    else c

/-- The local variable `H` of `MakeHSV` (lines 114-121): the hue before it is
regularized and rounded. -/
def rawHue (c : Color) : Option ℚ :=
  let max := maxVal [c.R, c.G, c.B]
  let min := minVal [c.R, c.G, c.B] (by simp)
  let R : ℚ := (c.R : ℚ)
  let G : ℚ := (c.G : ℚ)
  let B : ℚ := (c.B : ℚ)
  if max = R then (fdiv (G - B) (max - min)).map (fun q => 60 * q)
  else if max = G then (fdiv (B - R) (max - min)).map (fun q => 60 * (2 + q))
  else (fdiv (R - G) (max - min)).map (fun q => 60 * (4 + q))

/-- The hue formula of the branch `max == R` of `MakeHSV` (line 116). -/
def hueFromR (c : Color) : Option ℚ :=
  (fdiv ((c.G : ℚ) - c.B) (maxVal [c.R, c.G, c.B] - minVal [c.R, c.G, c.B] (by simp))).map
    (fun q => 60 * q)

/-- The hue formula of the branch `max == G` of `MakeHSV` (line 118). -/
def hueFromG (c : Color) : Option ℚ :=
  (fdiv ((c.B : ℚ) - c.R) (maxVal [c.R, c.G, c.B] - minVal [c.R, c.G, c.B] (by simp))).map
    (fun q => 60 * (2 + q))

/-- The hue formula of the last branch of `MakeHSV` (line 120). -/
def hueFromB (c : Color) : Option ℚ :=
  (fdiv ((c.R : ℚ) - c.G) (maxVal [c.R, c.G, c.B] - minVal [c.R, c.G, c.B] (by simp))).map
    (fun q => 60 * (4 + q))

/-- The method `MakeHSV` (lines 94-126). -/
def MakeHSV (c : Color) : Color :=
  let max := maxVal [c.R, c.G, c.B]
  let min := minVal [c.R, c.G, c.B] (by simp)
  let c1 := { c with V := max / 255 }
  if c1.V = 0 then { c1 with S := 0, H := 0 }
  else
    let c2 := { c1 with S := (max - min) / max }
    { c2 with H := Int.tmod (round (regularize (rawHue c))) 360 }

/-! ## Constructors (color.go, lines 20-40) -/

/-- The function `FromARGB` (lines 26-29); the fields not named in the
composite literal are zero. -/
def FromARGB (a r g b : Nat) : Color :=
  MakeHSV { A := a, R := r, G := g, B := b, H := 0, S := 0, V := 0 }

/-- The function `FromRGB` (lines 21-23). -/
def FromRGB (r g b : Nat) : Color := FromARGB 255 r g b

/-- The function `FromAHSV` (lines 37-40); the fields not named in the
composite literal are zero. -/
def FromAHSV (a : Nat) (h : Int) (s v : ℚ) : Color :=
  MakeRGB { A := a, H := h, S := s, V := v, R := 0, G := 0, B := 0 }

/-- The function `FromHSV` (lines 32-34). -/
def FromHSV (h : Int) (s v : ℚ) : Color := FromAHSV 255 h s v

/-! ## Formatting (color.go, lines 171-174) -/

/-- The verb `%X` of `fmt.Sprintf` on an unsigned integer: the digits in base
16, upper case, no padding. -/
def fmtX (n : Nat) : String :=
  String.mk ((Nat.toDigits 16 n).map Char.toUpper)

/-- The method `String` (lines 172-174): `fmt.Sprintf("#%X%X%X", c.R, c.G, c.B)`. -/
def Color.String (c : Color) : String :=
  "#" ++ fmtX c.R ++ fmtX c.G ++ fmtX c.B

/-! ## Vocabulary of the properties -/

/-- The two conversion methods, as the steps of a sequence of conversions. -/
inductive Conv where
  | makeHSV
  | makeRGB
deriving DecidableEq, Repr

/-- One conversion step. -/
def Conv.apply : Conv → Color → Color
  | .makeHSV, c => MakeHSV c
  | .makeRGB, c => MakeRGB c

/-- A sequence of conversions, applied from left to right. -/
def applyConvs (cs : List Conv) (c : Color) : Color :=
  cs.foldl (fun acc k => k.apply acc) c

/-- The upper-case hexadecimal digit of a number below 16. -/
def upperHexDigit (d : Nat) : Char := "0123456789ABCDEF".toList.getD d '0'

/-- Positional notation in base 16 of a `uint8`, without padding: one digit
below 16, two digits from 16 on. -/
def hexDigits (n : Nat) : List Char :=
  if n < 16 then [upperHexDigit n] else [upperHexDigit (n / 16), upperHexDigit (n % 16)]

/-- Distance between two channel values. -/
def chanDist (x y : Nat) : Nat := ((x : Int) - (y : Int)).natAbs

/-! ## Auxiliary facts: the helpers -/

theorem maxVal3 (r g b : Nat) : maxVal [r, g, b] = ((max r (max g b) : Nat) : ℚ) := by
  simp only [maxVal, List.foldl]
  congr 1
  split_ifs <;> omega

theorem minVal3 (r g b : Nat) (h : [r, g, b] ≠ []) :
    minVal [r, g, b] h = ((min r (min g b) : Nat) : ℚ) := by
  simp only [minVal, List.foldl, List.head]
  congr 1
  split_ifs <;> omega

/-- In `MakeHSV` a zero divisor `max - min` comes with a zero dividend in every
branch: the only non-finite quotient is 0/0. -/
theorem MakeHSV_divisor_zero (c : Color)
    (h : maxVal [c.R, c.G, c.B] - minVal [c.R, c.G, c.B] (by simp) = 0) :
    (c.G : ℚ) - c.B = 0 ∧ (c.B : ℚ) - c.R = 0 ∧ (c.R : ℚ) - c.G = 0 := by
  rw [maxVal3, minVal3, sub_eq_zero] at h
  have h1 : max c.R (max c.G c.B) = min c.R (min c.G c.B) := by exact_mod_cast h
  have h2 : c.R = c.G ∧ c.G = c.B := by omega
  rw [h2.1, h2.2]
  simp

theorem regularizeLoop_of_nonneg {H : ℚ} (h : 0 ≤ H) : regularizeLoop H = H := by
  rw [regularizeLoop, if_pos h]

theorem regularizeLoop_of_neg {H : ℚ} (h : H < 0) :
    regularizeLoop H = regularizeLoop (H + 360) := by
  rw [regularizeLoop, if_neg (not_le.mpr h)]

theorem regularizeLoop_nonneg (H : ℚ) : 0 ≤ regularizeLoop H := by
  induction H using regularizeLoop.induct with
  | case1 H h => rw [regularizeLoop_of_nonneg h]; exact h
  | case2 H h ih => rw [regularizeLoop_of_neg (not_le.mp h)]; exact ih

/-- One turn of the loop suffices for a hue in [-360, 0). -/
theorem regularizeLoop_of_neg_of_ge {H : ℚ} (h0 : H < 0) (h1 : -360 ≤ H) :
    regularizeLoop H = H + 360 := by
  rw [regularizeLoop_of_neg h0, regularizeLoop_of_nonneg (by linarith)]

theorem regularize_nonneg (h : Option ℚ) : 0 ≤ regularize h := by
  cases h with
  | none => exact le_rfl
  | some q => exact regularizeLoop_nonneg q

theorem regularizeLoop_zero : regularizeLoop 0 = 0 := regularizeLoop_of_nonneg le_rfl

theorem regularizeLoop_120 : regularizeLoop 120 = 120 := regularizeLoop_of_nonneg (by norm_num)

theorem regularizeLoop_240 : regularizeLoop 240 = 240 := regularizeLoop_of_nonneg (by norm_num)

/-- The loop of `regularize` in closed form. -/
theorem regularizeLoop_eq (H : ℚ) :
    regularizeLoop H = if 0 ≤ H then H else H - 360 * (⌊H / 360⌋ : ℚ) := by
  induction H using regularizeLoop.induct with
  | case1 H h => rw [regularizeLoop_of_nonneg h, if_pos h]
  | case2 H h ih =>
    have hneg : H < 0 := not_le.mp h
    rw [regularizeLoop_of_neg hneg, ih, if_neg h]
    have hfl : ⌊(H + 360) / 360⌋ = ⌊H / 360⌋ + 1 := by
      rw [← Int.floor_add_one]; congr 1; ring
    split_ifs with h1
    · have hm1 : ⌊H / 360⌋ = -1 := by
        rw [Int.floor_eq_iff]
        constructor
        · rw [le_div_iff₀ (by norm_num)]; push_cast; linarith
        · rw [div_lt_iff₀ (by norm_num)]; push_cast; linarith
      rw [hm1]; push_cast; ring
    · rw [hfl]; push_cast; ring

/-- Number of turns of the loop: none for a non-negative hue. -/
theorem turns_of_nonneg {H : ℚ} (h : 0 ≤ H) : (⌈-H / 360⌉).toNat = 0 := by
  have : ⌈-H / 360⌉ ≤ 0 := by
    rw [Int.ceil_le]
    push_cast
    exact div_nonpos_of_nonpos_of_nonneg (by linarith) (by norm_num)
  omega

/-- Number of turns of the loop: one more than after the first turn. -/
theorem turns_of_neg {H : ℚ} (h : H < 0) :
    (⌈-H / 360⌉).toNat = (⌈-(H + 360) / 360⌉).toNat + 1 := by
  have h1 : ⌈-(H + 360) / 360⌉ = ⌈-H / 360⌉ - 1 := by
    rw [← Int.ceil_sub_one]; congr 1; ring
  have h2 : 0 < ⌈-H / 360⌉ :=
    Int.ceil_pos.mpr (div_pos (by linarith) (by norm_num))
  rw [h1]
  omega

theorem turns_le_one {h : ℚ} (hh : -60 ≤ h) : (⌈-h / 360⌉).toNat ≤ 1 := by
  by_cases h0 : 0 ≤ h
  · rw [turns_of_nonneg h0]; omega
  · rw [turns_of_neg (not_le.mp h0), turns_of_nonneg (by linarith)]

theorem regularizeLoop_add_turns (H : ℚ) :
    regularizeLoop H = H + 360 * ((⌈-H / 360⌉).toNat : ℚ) := by
  induction H using regularizeLoop.induct with
  | case1 H h => rw [regularizeLoop_of_nonneg h, turns_of_nonneg h]; simp
  | case2 H h ih =>
    have hneg : H < 0 := not_le.mp h
    rw [regularizeLoop_of_neg hneg, ih, turns_of_neg hneg]
    push_cast
    ring

/-- With more fuel than turns, the bounded loop ends with the value of
`regularizeLoop` after exactly `⌈-H/360⌉` additions. -/
theorem regularizeIter_of_lt (fuel : Nat) (H : ℚ) (h : (⌈-H / 360⌉).toNat < fuel) :
    regularizeIter fuel H = some (regularizeLoop H, (⌈-H / 360⌉).toNat) := by
  induction fuel generalizing H with
  | zero => omega
  | succ n ih =>
    unfold regularizeIter
    by_cases h0 : 0 ≤ H
    · rw [if_pos h0, regularizeLoop_of_nonneg h0, turns_of_nonneg h0]
    · have hneg : H < 0 := not_le.mp h0
      rw [if_neg h0, regularizeLoop_of_neg hneg]
      have ht := turns_of_neg hneg
      rw [ih (H + 360) (by omega), ht]
      rfl

/-- With no more fuel than turns, the bounded loop does not end. -/
theorem regularizeIter_of_le (fuel : Nat) (H : ℚ) (h : fuel ≤ (⌈-H / 360⌉).toNat) :
    regularizeIter fuel H = none := by
  induction fuel generalizing H with
  | zero => rfl
  | succ n ih =>
    unfold regularizeIter
    by_cases h0 : 0 ≤ H
    · have := turns_of_nonneg h0
      omega
    · have hneg : H < 0 := not_le.mp h0
      have ht := turns_of_neg hneg
      rw [if_neg h0, ih (H + 360) (by omega)]
      rfl

theorem round_intCast (z : Int) : round (z : ℚ) = z := by
  unfold round
  split_ifs with h
  · rw [Int.ceil_eq_iff]; constructor <;> linarith
  · rw [Int.floor_eq_iff]; constructor <;> linarith

theorem round_natCast (n : Nat) : round (n : ℚ) = n := by
  have := round_intCast (n : Int)
  simpa using this

theorem round_eq_of_nonneg {n : ℚ} {z : Int} (h0 : 0 ≤ n) (h1 : (z : ℚ) ≤ n + 1/2)
    (h2 : n + 1/2 < z + 1) : round n = z := by
  unfold round
  rw [if_neg (not_lt.mpr h0), Int.floor_eq_iff]
  exact ⟨h1, h2⟩

theorem round_nonneg {n : ℚ} (h : 0 ≤ n) : 0 ≤ round n := by
  unfold round
  rw [if_neg (not_lt.mpr h)]
  exact Int.floor_nonneg.mpr (by linarith)

theorem abs_round_sub_le (n : ℚ) : |(round n : ℚ) - n| ≤ 1/2 := by
  unfold round
  rw [abs_le]
  split_ifs with h
  · have h1 := Int.ceil_lt_add_one (n - 1/2)
    have h2 := Int.le_ceil (n - 1/2)
    constructor <;> linarith
  · have h1 := Int.lt_floor_add_one (n + 1/2)
    have h2 := Int.floor_le (n + 1/2)
    constructor <;> linarith

theorem round_mem_of_mem {y : ℚ} (h0 : 0 ≤ y) (h1 : y ≤ 255) :
    0 ≤ round y ∧ round y < 256 := by
  refine ⟨round_nonneg h0, ?_⟩
  have := abs_le.mp (abs_round_sub_le y)
  have h2 : ((round y : Int) : ℚ) < 256 := by linarith [this.2]
  exact_mod_cast h2

theorem round_zero : round 0 = 0 := by simpa using round_natCast 0

theorem round_255 : round 255 = 255 := by simpa using round_natCast 255

theorem round_120 : round 120 = 120 := by simpa using round_natCast 120

theorem round_240 : round 240 = 240 := by simpa using round_natCast 240

theorem round_510 : round 510 = 510 := by simpa using round_natCast 510

theorem round_mono {a b : ℚ} (h0 : 0 ≤ a) (h : a ≤ b) : round a ≤ round b := by
  unfold round
  rw [if_neg (not_lt.mpr h0), if_neg (not_lt.mpr (le_trans h0 h))]
  exact Int.floor_mono (by linarith)

theorem round_tie (k : Int) : round ((k : ℚ) + 1/2) = if 0 ≤ k then k + 1 else k := by
  unfold round
  split_ifs with h1 h2 h2
  · exfalso
    have : (0 : ℚ) ≤ k := by exact_mod_cast h2
    linarith
  · have e : (k : ℚ) + 1/2 - 1/2 = ((k : Int) : ℚ) := by ring
    rw [e, Int.ceil_intCast]
  · have e : (k : ℚ) + 1/2 + 1/2 = ((k + 1 : Int) : ℚ) := by push_cast; ring
    rw [e, Int.floor_intCast]
  · exfalso
    have h3 : k ≤ -1 := by omega
    have : (k : ℚ) ≤ -1 := by exact_mod_cast h3
    linarith

theorem round_neg (n : ℚ) : round (-n) = -round n := by
  unfold round
  rcases lt_trichotomy n 0 with h | h | h
  · rw [if_neg (by linarith), if_pos h]
    have e : -n + 1/2 = -(n - 1/2) := by ring
    rw [e, Int.floor_neg]
  · subst h
    norm_num
  · rw [if_pos (by linarith), if_neg (by linarith)]
    have e : -n - 1/2 = -(n + 1/2) := by ring
    rw [e, Int.ceil_neg]

theorem toUint8_of_lt {z : Int} (h0 : 0 ≤ z) (h1 : z < 256) : ((toUint8 z : Nat) : Int) = z := by
  unfold toUint8
  rw [Int.toNat_of_nonneg (Int.emod_nonneg _ (by decide)), Int.emod_eq_of_lt h0 h1]

theorem toUint8_natCast {n : Nat} (h : n < 256) : toUint8 (n : Int) = n := by
  have := toUint8_of_lt (Int.natCast_nonneg n) (by exact_mod_cast h)
  exact_mod_cast this

theorem toUint8_zero : toUint8 0 = 0 := by decide

theorem toUint8_255 : toUint8 255 = 255 := by decide

theorem toUint8_128 : toUint8 128 = 128 := by decide

theorem chanDist_self (n : Nat) : chanDist n n = 0 := by
  unfold chanDist; simp

theorem floor_div_sixty (H : Int) : ⌊(H : ℚ) / 60⌋ = H / 60 := by
  have := Rat.floor_intCast_div_natCast H 60
  simpa using this

theorem floor_hue_sector {H k : Int} (h1 : 60 * k ≤ H) (h2 : H < 60 * k + 60) :
    ⌊(H : ℚ) / 60⌋ = k := by
  rw [floor_div_sixty]; omega

/-- Bounds on a quotient by a positive number. -/
theorem quot_bounds {p d lo hi : ℚ} (hd : 0 < d) (h1 : lo * d ≤ p) (h2 : p ≤ hi * d) :
    lo ≤ p / d ∧ p / d ≤ hi ∧ d * (p / d) = p :=
  ⟨(le_div_iff₀ hd).mpr h1, (div_le_iff₀ hd).mpr h2, mul_div_cancel₀ p (ne_of_gt hd)⟩

theorem level_min_eq {M m : ℚ} (hM : M ≠ 0) : M / 255 * (1 - (M - m) / M) * 255 = m := by
  field_simp
  ring

/-- Integer bounds on a hue within 1/2 of a rational in `[lo, hi]`. -/
theorem hue_int_bounds {H : Int} {x : ℚ} (lo hi : Int) (hx : |(H : ℚ) - x| ≤ 1/2)
    (h1 : (lo : ℚ) ≤ x) (h2 : x ≤ hi) : lo ≤ H ∧ H ≤ hi := by
  have h := abs_le.mp hx
  have a1 : ((lo - 1 : Int) : ℚ) < H := by push_cast; linarith [h.1]
  have a2 : (H : ℚ) < ((hi + 1 : Int) : ℚ) := by push_cast; linarith [h.2]
  have b1 : lo - 1 < H := by exact_mod_cast a1
  have b2 : H < hi + 1 := by exact_mod_cast a2
  omega

/-! ## Auxiliary facts: formatting -/

set_option maxRecDepth 100000 in
theorem fmtX_data_fin : ∀ n : Fin 256, (fmtX n.val).data = hexDigits n.val := by
  decide

/-- On a `uint8` the verb `%X` writes the positional notation `hexDigits`. -/
theorem fmtX_data {n : Nat} (h : n < 256) : (fmtX n).data = hexDigits n :=
  fmtX_data_fin ⟨n, h⟩

set_option maxRecDepth 100000 in
theorem hexDigits_upper_fin :
    ∀ n : Fin 256, ∀ ch ∈ hexDigits n.val, ch ∈ "0123456789ABCDEF".toList := by
  decide

theorem hexDigits_length (n : Nat) : (hexDigits n).length = if n < 16 then 1 else 2 := by
  unfold hexDigits
  split_ifs <;> rfl

theorem String_data (c : Color) (hR : c.R < 256) (hG : c.G < 256) (hB : c.B < 256) :
    (Color.String c).data = '#' :: (hexDigits c.R ++ hexDigits c.G ++ hexDigits c.B) := by
  unfold Color.String
  simp only [String.data_append, fmtX_data hR, fmtX_data hG, fmtX_data hB]
  rfl

/-- Two different colours with the same `String()`. -/
theorem String_collision :
    Color.String { R := 15, G := 240, B := 8, H := 0, S := 0, V := 0, A := 255 }
      = Color.String { R := 255, G := 0, B := 8, H := 0, S := 0, V := 0, A := 255 } := by
  decide

/-! ## Auxiliary facts: HSV to RGB -/

/-- Outside the six sectors `MakeRGB` returns its argument. -/
theorem MakeRGB_out_of_sector (c : Color) (hS : c.S ≠ 0) (hH : c.H < 0 ∨ 360 ≤ c.H) :
    MakeRGB c = c := by
  unfold MakeRGB
  rw [if_neg hS]
  simp only [floor_div_sixty]
  have h0 : c.H / 60 ≠ 0 := by omega
  have h1 : c.H / 60 ≠ 1 := by omega
  have h2 : c.H / 60 ≠ 2 := by omega
  have h3 : c.H / 60 ≠ 3 := by omega
  have h4 : c.H / 60 ≠ 4 := by omega
  have h5 : c.H / 60 ≠ 5 := by omega
  simp [h0, h1, h2, h3, h4, h5]

theorem MakeRGB_of_S_zero (c : Color) (hS : c.S = 0) :
    MakeRGB c = { c with R := toUint8 (round (c.V * 255)), G := toUint8 (round (c.V * 255)),
                         B := toUint8 (round (c.V * 255)) } := by
  unfold MakeRGB
  rw [if_pos hS]

theorem MakeRGB_A (c : Color) : (MakeRGB c).A = c.A := by
  unfold MakeRGB
  simp only
  split_ifs <;> rfl

/-- The result of `MakeRGB` on a colour with S ≠ 0 whose hue lies in sector `k`. -/
theorem MakeRGB_sector (c : Color) (k : Int) (hS : c.S ≠ 0)
    (h1 : 60 * k ≤ c.H) (h2 : c.H < 60 * k + 60) :
    MakeRGB c =
      if k = 0 then { c with
        R := toUint8 (round (c.V * 255))
        G := toUint8 (round (c.V * (1 - c.S * (1 - ((c.H : ℚ) / 60 - k))) * 255))
        B := toUint8 (round (c.V * (1 - c.S) * 255)) }
      else if k = 1 then { c with
        R := toUint8 (round (c.V * (1 - c.S * ((c.H : ℚ) / 60 - k)) * 255))
        G := toUint8 (round (c.V * 255))
        B := toUint8 (round (c.V * (1 - c.S) * 255)) }
      else if k = 2 then { c with
        R := toUint8 (round (c.V * (1 - c.S) * 255))
        G := toUint8 (round (c.V * 255))
        B := toUint8 (round (c.V * (1 - c.S * (1 - ((c.H : ℚ) / 60 - k))) * 255)) }
      else if k = 3 then { c with
        R := toUint8 (round (c.V * (1 - c.S) * 255))
        G := toUint8 (round (c.V * (1 - c.S * ((c.H : ℚ) / 60 - k)) * 255))
        B := toUint8 (round (c.V * 255)) }
      else if k = 4 then { c with
        R := toUint8 (round (c.V * (1 - c.S * (1 - ((c.H : ℚ) / 60 - k))) * 255))
        G := toUint8 (round (c.V * (1 - c.S) * 255))
        B := toUint8 (round (c.V * 255)) }
      else if k = 5 then { c with
        R := toUint8 (round (c.V * 255))
        G := toUint8 (round (c.V * (1 - c.S) * 255))
        B := toUint8 (round (c.V * (1 - c.S * ((c.H : ℚ) / 60 - k)) * 255)) }
      else c := by
  unfold MakeRGB
  rw [if_neg hS]
  simp only [floor_hue_sector h1 h2]

/-- The result of `MakeRGB` on a colour with V = M/255 and S = (M - m)/M, for
M > m, whose hue lies in sector `k`. -/
theorem MakeRGB_chromatic_sector (c : Color) (M m : ℚ) (k : Int) (hM : M ≠ 0) (hm : m ≠ M)
    (hV : c.V = M / 255) (hS : c.S = (M - m) / M)
    (h1 : 60 * k ≤ c.H) (h2 : c.H < 60 * k + 60) :
    MakeRGB c =
      if k = 0 then { c with R := toUint8 (round M),
                             G := toUint8 (round (m + (M - m) * ((c.H : ℚ) / 60 - k))),
                             B := toUint8 (round m) }
      else if k = 1 then { c with R := toUint8 (round (M - (M - m) * ((c.H : ℚ) / 60 - k))),
                                  G := toUint8 (round M),
                                  B := toUint8 (round m) }
      else if k = 2 then { c with R := toUint8 (round m),
                                  G := toUint8 (round M),
                                  B := toUint8 (round (m + (M - m) * ((c.H : ℚ) / 60 - k))) }
      else if k = 3 then { c with R := toUint8 (round m),
                                  G := toUint8 (round (M - (M - m) * ((c.H : ℚ) / 60 - k))),
                                  B := toUint8 (round M) }
      else if k = 4 then { c with R := toUint8 (round (m + (M - m) * ((c.H : ℚ) / 60 - k))),
                                  G := toUint8 (round m),
                                  B := toUint8 (round M) }
      else if k = 5 then { c with R := toUint8 (round M),
                                  G := toUint8 (round m),
                                  B := toUint8 (round (M - (M - m) * ((c.H : ℚ) / 60 - k))) }
      else c := by
  have hS0 : c.S ≠ 0 := by
    rw [hS]
    exact div_ne_zero (sub_ne_zero.mpr (Ne.symm hm)) hM
  have e1 : c.V * (1 - c.S) * 255 = m := by rw [hV, hS]; field_simp; ring
  have e2 : c.V * 255 = M := by rw [hV]; field_simp
  have e3 : ∀ F : ℚ, c.V * (1 - c.S * F) * 255 = M - (M - m) * F := by
    intro F; rw [hV, hS]; field_simp; ring
  have e4 : ∀ F : ℚ, c.V * (1 - c.S * (1 - F)) * 255 = m + (M - m) * F := by
    intro F; rw [hV, hS]; field_simp; ring
  unfold MakeRGB
  rw [if_neg hS0]
  simp only [floor_hue_sector h1 h2, e1, e2, e4]
  simp only [e3]

/-- The four levels of `MakeRGB`, for S and V in [0,1] and a fraction F in [0,1]:
they lie in [0,255], between the level of the minimum and that of the maximum. -/
theorem MakeRGB_levels (S V F : ℚ) (hS0 : 0 ≤ S) (hS1 : S ≤ 1) (hV0 : 0 ≤ V) (hV1 : V ≤ 1)
    (hF0 : 0 ≤ F) (hF1 : F ≤ 1) :
    0 ≤ round (V * (1 - S) * 255) ∧ round (V * 255) ≤ 255
    ∧ round (V * (1 - S) * 255) ≤ round (V * (1 - S * F) * 255)
    ∧ round (V * (1 - S * F) * 255) ≤ round (V * 255)
    ∧ round (V * (1 - S) * 255) ≤ round (V * (1 - S * (1 - F)) * 255)
    ∧ round (V * (1 - S * (1 - F)) * 255) ≤ round (V * 255) := by
  have hVS : 0 ≤ V * S := mul_nonneg hV0 hS0
  have a1 : 0 ≤ V * (1 - S) := mul_nonneg hV0 (by linarith)
  have a2 : 0 ≤ V * S * F := mul_nonneg hVS hF0
  have a3 : 0 ≤ V * S * (1 - F) := mul_nonneg hVS (by linarith)
  have e1 : V * (1 - S * F) = V * (1 - S) + V * S * (1 - F) := by ring
  have e2 : V * (1 - S * (1 - F)) = V * (1 - S) + V * S * F := by ring
  have e3 : V = V * (1 - S) + V * S * (1 - F) + V * S * F := by ring
  have m0 : (0 : ℚ) ≤ V * (1 - S) * 255 := by linarith
  have hhi : round (V * 255) ≤ 255 := by
    have := round_mono (by linarith : (0 : ℚ) ≤ V * 255) (by linarith : V * 255 ≤ 255)
    rwa [round_255] at this
  refine ⟨round_nonneg m0, hhi, round_mono m0 (by linarith), round_mono (by linarith) (by linarith),
    round_mono m0 (by linarith), round_mono (by linarith) (by linarith)⟩

/-- For a hue in [0,359], S in (0,1] and V in [0,1], the channels of `MakeRGB`
are the level of the maximum, the level of the minimum and a level between
them, none of them wrapped. -/
theorem MakeRGB_bracket (c : Color) (hH0 : 0 ≤ c.H) (hH1 : c.H ≤ 359)
    (hS0 : 0 < c.S) (hS1 : c.S ≤ 1) (hV0 : 0 ≤ c.V) (hV1 : c.V ≤ 1) :
    ((max (MakeRGB c).R (max (MakeRGB c).G (MakeRGB c).B) : Nat) : Int) = round (c.V * 255)
    ∧ ((min (MakeRGB c).R (min (MakeRGB c).G (MakeRGB c).B) : Nat) : Int)
        = round (c.V * (1 - c.S) * 255)
    ∧ (round (c.V * (1 - c.S) * 255) ≤ ((MakeRGB c).R : Int)
        ∧ ((MakeRGB c).R : Int) ≤ round (c.V * 255))
    ∧ (round (c.V * (1 - c.S) * 255) ≤ ((MakeRGB c).G : Int)
        ∧ ((MakeRGB c).G : Int) ≤ round (c.V * 255))
    ∧ (round (c.V * (1 - c.S) * 255) ≤ ((MakeRGB c).B : Int)
        ∧ ((MakeRGB c).B : Int) ≤ round (c.V * 255))
    ∧ 0 ≤ round (c.V * (1 - c.S) * 255) ∧ round (c.V * 255) ≤ 255 := by
  have hS : c.S ≠ 0 := ne_of_gt hS0
  have hk : ∃ k : Int, 0 ≤ k ∧ k ≤ 5 ∧ 60 * k ≤ c.H ∧ c.H < 60 * k + 60 :=
    ⟨c.H / 60, by omega, by omega, by omega, by omega⟩
  obtain ⟨k, k0, k5, h1, h2⟩ := hk
  have q1 : ((60 * k : Int) : ℚ) ≤ c.H := by exact_mod_cast h1
  have q2 : (c.H : ℚ) < ((60 * k + 60 : Int) : ℚ) := by exact_mod_cast h2
  push_cast at q1 q2
  obtain ⟨l0, l1, l2, l3, l4, l5⟩ := MakeRGB_levels c.S c.V ((c.H : ℚ) / 60 - k) hS0.le hS1 hV0 hV1
    (by linarith) (by linarith)
  have wa := toUint8_of_lt l0 (by omega : round (c.V * (1 - c.S) * 255) < 256)
  have wb := toUint8_of_lt (by omega : 0 ≤ round (c.V * 255)) (by omega : round (c.V * 255) < 256)
  have wn := toUint8_of_lt (by omega : 0 ≤ round (c.V * (1 - c.S * ((c.H : ℚ) / 60 - k)) * 255))
    (by omega)
  have wk := toUint8_of_lt
    (by omega : 0 ≤ round (c.V * (1 - c.S * (1 - ((c.H : ℚ) / 60 - k))) * 255)) (by omega)
  rw [MakeRGB_sector c k hS h1 h2]
  have hcases : k = 0 ∨ k = 1 ∨ k = 2 ∨ k = 3 ∨ k = 4 ∨ k = 5 := by omega
  rcases hcases with rfl | rfl | rfl | rfl | rfl | rfl <;>
    simp only [Int.reduceEq, reduceIte] at wn wk ⊢ <;>
    refine ⟨?_, ?_, ⟨?_, ?_⟩, ⟨?_, ?_⟩, ⟨?_, ?_⟩, l0, l1⟩ <;> omega

/-- For S and V in [0,1] none of the four levels of `MakeRGB` wraps when it is
narrowed to eight bits. -/
theorem MakeRGB_no_wrap (c : Color) (hS0 : 0 ≤ c.S) (hS1 : c.S ≤ 1) (hV0 : 0 ≤ c.V)
    (hV1 : c.V ≤ 1) :
    ((toUint8 (round (c.V * (1 - c.S) * 255)) : Nat) : Int) = round (c.V * (1 - c.S) * 255)
    ∧ ((toUint8 (round (c.V * (1 - c.S * ((c.H : ℚ) / 60 - (⌊(c.H : ℚ) / 60⌋ : Int))) * 255))
          : Nat) : Int)
        = round (c.V * (1 - c.S * ((c.H : ℚ) / 60 - (⌊(c.H : ℚ) / 60⌋ : Int))) * 255)
    ∧ ((toUint8 (round (c.V * (1 - c.S * (1 - ((c.H : ℚ) / 60 - (⌊(c.H : ℚ) / 60⌋ : Int))))
          * 255)) : Nat) : Int)
        = round (c.V * (1 - c.S * (1 - ((c.H : ℚ) / 60 - (⌊(c.H : ℚ) / 60⌋ : Int)))) * 255)
    ∧ ((toUint8 (round (c.V * 255)) : Nat) : Int) = round (c.V * 255) := by
  have f0 := Int.floor_le ((c.H : ℚ) / 60)
  have f1 := Int.lt_floor_add_one ((c.H : ℚ) / 60)
  obtain ⟨l0, l1, l2, l3, l4, l5⟩ := MakeRGB_levels c.S c.V
    ((c.H : ℚ) / 60 - (⌊(c.H : ℚ) / 60⌋ : Int)) hS0 hS1 hV0 hV1 (by linarith) (by linarith)
  exact ⟨toUint8_of_lt l0 (by omega), toUint8_of_lt (by omega) (by omega),
    toUint8_of_lt (by omega) (by omega), toUint8_of_lt (by omega) (by omega)⟩

/-- The plateaus of `MakeRGB`. A colour carries V = M/255 and S = (M - m)/M
for natural numbers m < M ≤ 255 and a hue in [0,359]. Then R = M for a hue up
to 60 or from 300 on, G = M on [60,180], B = M on [180,300]; and R = m on
[120,240], G = m at 0 and from 240 on, B = m up to 120. -/
theorem MakeRGB_plateaus (c : Color) (M m : Nat) (hmM : m < M) (hM : M ≤ 255)
    (hV : c.V = (M : ℚ) / 255) (hS : c.S = ((M : ℚ) - m) / M)
    (hH0 : 0 ≤ c.H) (hH1 : c.H ≤ 359) :
    (c.H ≤ 60 ∨ 300 ≤ c.H → (MakeRGB c).R = M)
    ∧ (60 ≤ c.H ∧ c.H ≤ 180 → (MakeRGB c).G = M)
    ∧ (180 ≤ c.H ∧ c.H ≤ 300 → (MakeRGB c).B = M)
    ∧ (120 ≤ c.H ∧ c.H ≤ 240 → (MakeRGB c).R = m)
    ∧ (c.H = 0 ∨ 240 ≤ c.H → (MakeRGB c).G = m)
    ∧ (c.H ≤ 120 → (MakeRGB c).B = m) := by
  have hmq : (m : ℚ) < M := by exact_mod_cast hmM
  have hM0 : (M : ℚ) ≠ 0 := by
    have : (0 : ℚ) ≤ m := Nat.cast_nonneg m
    linarith
  have hk : ∃ k : Int, 0 ≤ k ∧ k ≤ 5 ∧ 60 * k ≤ c.H ∧ c.H < 60 * k + 60 :=
    ⟨c.H / 60, by omega, by omega, by omega, by omega⟩
  obtain ⟨k, k0, k5, h1, h2⟩ := hk
  have vM : toUint8 (round (M : ℚ)) = M := by
    rw [round_natCast]; exact toUint8_natCast (by omega)
  have vm : toUint8 (round (m : ℚ)) = m := by
    rw [round_natCast]; exact toUint8_natCast (by omega)
  have vK : c.H = 60 * k → toUint8 (round ((m : ℚ) + ((M : ℚ) - m) * ((c.H : ℚ) / 60 - k))) = m := by
    intro h
    have e : (m : ℚ) + ((M : ℚ) - m) * ((c.H : ℚ) / 60 - k) = m := by
      rw [h]; push_cast; ring
    rw [e]; exact vm
  have vN : c.H = 60 * k → toUint8 (round ((M : ℚ) - ((M : ℚ) - m) * ((c.H : ℚ) / 60 - k))) = M := by
    intro h
    have e : (M : ℚ) - ((M : ℚ) - m) * ((c.H : ℚ) / 60 - k) = M := by
      rw [h]; push_cast; ring
    rw [e]; exact vM
  rw [MakeRGB_chromatic_sector c M m k hM0 (ne_of_lt hmq) hV hS h1 h2]
  have hcases : k = 0 ∨ k = 1 ∨ k = 2 ∨ k = 3 ∨ k = 4 ∨ k = 5 := by omega
  rcases hcases with rfl | rfl | rfl | rfl | rfl | rfl <;>
    simp only [Int.reduceEq, reduceIte] at vK vN ⊢ <;>
    refine ⟨?_, ?_, ?_, ?_, ?_, ?_⟩ <;> intro h <;>
    first
    | exact vM
    | exact vm
    | exact vK (by omega)
    | exact vN (by omega)
    | (exfalso; omega)

theorem FromAHSV_330 : FromAHSV 255 330 1 1
    = { R := 255, G := 0, B := 128, H := 330, S := 1, V := 1, A := 255 } := by
  have hf : ⌊(330 : ℚ) / 60⌋ = 5 := by
    have := @floor_hue_sector 330 5 (by norm_num) (by norm_num)
    simpa using this
  have hr : round (255 / 2) = 128 := round_eq_of_nonneg (by norm_num) (by norm_num) (by norm_num)
  simp only [FromAHSV, MakeRGB, Int.cast_ofNat, hf]
  norm_num [round_zero, round_255, hr, toUint8_zero, toUint8_255, toUint8_128]

theorem FromAHSV_neg30 : FromAHSV 255 (-30) 1 1
    = { R := 0, G := 0, B := 0, H := -30, S := 1, V := 1, A := 255 } := by
  unfold FromAHSV
  exact MakeRGB_out_of_sector _ (by norm_num) (by norm_num)

/-- Value of `FromHSV h 1 1` at a multiple `60 * k` of sixty degrees, for sector `k`. -/
theorem FromHSV_boundary (k : Int) :
    MakeRGB { A := 255, H := 60 * k, S := 1, V := 1, R := 0, G := 0, B := 0 }
      = if k = 0 then { R := 255, G := 0, B := 0, H := 60 * k, S := 1, V := 1, A := 255 }
        else if k = 1 then { R := 255, G := 255, B := 0, H := 60 * k, S := 1, V := 1, A := 255 }
        else if k = 2 then { R := 0, G := 255, B := 0, H := 60 * k, S := 1, V := 1, A := 255 }
        else if k = 3 then { R := 0, G := 255, B := 255, H := 60 * k, S := 1, V := 1, A := 255 }
        else if k = 4 then { R := 0, G := 0, B := 255, H := 60 * k, S := 1, V := 1, A := 255 }
        else if k = 5 then { R := 255, G := 0, B := 255, H := 60 * k, S := 1, V := 1, A := 255 }
        else { A := 255, H := 60 * k, S := 1, V := 1, R := 0, G := 0, B := 0 } := by
  have hf : ⌊((60 * k : Int) : ℚ) / 60⌋ = k := floor_hue_sector le_rfl (by omega)
  have hF : ((60 * k : Int) : ℚ) / 60 - (k : ℚ) = 0 := by push_cast; ring
  simp only [MakeRGB, hf, hF]
  norm_num [round_zero, round_255, toUint8_zero, toUint8_255]

/-! ## Auxiliary facts: RGB to HSV -/

theorem MakeHSV_A (c : Color) : (MakeHSV c).A = c.A := by
  unfold MakeHSV
  simp only
  split_ifs <;> rfl

theorem applyConvs_A (cs : List Conv) (c : Color) : (applyConvs cs c).A = c.A := by
  unfold applyConvs
  induction cs generalizing c with
  | nil => rfl
  | cons k ks ih =>
    rw [List.foldl_cons, ih]
    cases k
    · exact MakeHSV_A c
    · exact MakeRGB_A c

/-- The result of `MakeHSV` on a colour whose channels are not all zero. -/
theorem MakeHSV_of_max_ne_zero (c : Color) (h : maxVal [c.R, c.G, c.B] ≠ 0) :
    MakeHSV c = { c with
      V := maxVal [c.R, c.G, c.B] / 255
      S := (maxVal [c.R, c.G, c.B] - minVal [c.R, c.G, c.B] (by simp)) / maxVal [c.R, c.G, c.B]
      H := Int.tmod (round (regularize (rawHue c))) 360 } := by
  unfold MakeHSV
  simp only
  rw [if_neg (div_ne_zero h (by norm_num))]

/-- The result of `MakeHSV` on black. -/
theorem MakeHSV_of_max_eq_zero (c : Color) (h : maxVal [c.R, c.G, c.B] = 0) :
    MakeHSV c = { c with V := 0, S := 0, H := 0 } := by
  unfold MakeHSV
  simp only [h, zero_div, if_true]

/-- The raw hue of a gray that is not black is not-a-number. -/
theorem rawHue_gray (k : Nat) (h : Int) (s v : ℚ) (a : Nat) :
    rawHue { R := k, G := k, B := k, H := h, S := s, V := v, A := a } = none := by
  simp [rawHue, maxVal3, minVal3, fdiv]

/-- The result of `MakeHSV` on a gray, black and white included. -/
theorem MakeHSV_gray (k : Nat) (h : Int) (s v : ℚ) (a : Nat) :
    MakeHSV { R := k, G := k, B := k, H := h, S := s, V := v, A := a }
      = { R := k, G := k, B := k, H := 0, S := 0, V := (k : ℚ) / 255, A := a } := by
  by_cases hk : (k : ℚ) = 0
  · rw [MakeHSV_of_max_eq_zero _ (by simp [maxVal3, hk])]
    simp [hk]
  · rw [MakeHSV_of_max_ne_zero _ (by simp only [maxVal3]; simpa using hk)]
    simp only [rawHue_gray, regularize, maxVal3, minVal3]
    simp [round_zero]

/-- After `MakeHSV` on 8-bit channels: H in [0,359], S and V in [0,1]. -/
theorem MakeHSV_range (c : Color) (hR : c.R < 256) (hG : c.G < 256) (hB : c.B < 256) :
    0 ≤ (MakeHSV c).H ∧ (MakeHSV c).H ≤ 359 ∧ 0 ≤ (MakeHSV c).S ∧ (MakeHSV c).S ≤ 1
      ∧ 0 ≤ (MakeHSV c).V ∧ (MakeHSV c).V ≤ 1 := by
  have hM : max c.R (max c.G c.B) ≤ 255 := by omega
  have hm : min c.R (min c.G c.B) ≤ max c.R (max c.G c.B) := by omega
  have hMq : ((max c.R (max c.G c.B) : Nat) : ℚ) ≤ 255 := by exact_mod_cast hM
  have hmq : ((min c.R (min c.G c.B) : Nat) : ℚ) ≤ ((max c.R (max c.G c.B) : Nat) : ℚ) := by
    exact_mod_cast hm
  have hM0 : (0 : ℚ) ≤ ((max c.R (max c.G c.B) : Nat) : ℚ) := Nat.cast_nonneg _
  have hm0 : (0 : ℚ) ≤ ((min c.R (min c.G c.B) : Nat) : ℚ) := Nat.cast_nonneg _
  by_cases hV : maxVal [c.R, c.G, c.B] = 0
  · rw [MakeHSV_of_max_eq_zero c hV]
    norm_num
  · rw [MakeHSV_of_max_ne_zero c hV]
    simp only [maxVal3, minVal3] at hV ⊢
    have hpos : (0 : ℚ) < ((max c.R (max c.G c.B) : Nat) : ℚ) := lt_of_le_of_ne hM0 (Ne.symm hV)
    refine ⟨Int.tmod_nonneg _ (round_nonneg (regularize_nonneg _)), ?_, ?_, ?_, ?_, ?_⟩
    · have := Int.tmod_lt_of_pos (round (regularize (rawHue c))) (by norm_num : (0 : Int) < 360)
      omega
    · exact div_nonneg (by linarith) hM0
    · rw [div_le_one hpos]; linarith
    · exact div_nonneg hM0 (by norm_num)
    · rw [div_le_one (by norm_num)]; exact hMq

/-- Rounding a hue in [0,360) and reducing modulo 360. -/
theorem hue_round_tmod {x : ℚ} (h0 : 0 ≤ x) (h1 : x < 360) :
    0 ≤ Int.tmod (round x) 360 ∧ Int.tmod (round x) 360 < 360
    ∧ ((Int.tmod (round x) 360 = round x ∧ round x < 360)
      ∨ (Int.tmod (round x) 360 = 0 ∧ round x = 360)) := by
  have hr0 : 0 ≤ round x := round_nonneg h0
  have hr := abs_le.mp (abs_round_sub_le x)
  have h2 : ((round x : Int) : ℚ) < ((361 : Int) : ℚ) := by push_cast; linarith [hr.2]
  have h3 : round x < 361 := by exact_mod_cast h2
  rw [Int.tmod_eq_emod hr0 (by norm_num)]
  omega

theorem rawHue_eq_branches (c : Color) :
    rawHue c = if maxVal [c.R, c.G, c.B] = (c.R : ℚ) then hueFromR c
      else if maxVal [c.R, c.G, c.B] = (c.G : ℚ) then hueFromG c else hueFromB c := rfl

/-- The raw hue, branch by branch of `MakeHSV`: not-a-number on a gray, and
otherwise a number in the arc of the branch taken. -/
theorem rawHue_cases (c : Color) :
    (c.R = c.G ∧ c.G = c.B ∧ rawHue c = none)
    ∨ (c.G ≤ c.R ∧ c.B ≤ c.G ∧ c.B < c.R ∧ ∃ h, rawHue c = some h ∧ 0 ≤ h ∧ h ≤ 60)
    ∨ (c.B ≤ c.R ∧ c.G < c.B ∧ ∃ h, rawHue c = some h ∧ -60 ≤ h ∧ h < 0)
    ∨ (c.R < c.G ∧ c.B ≤ c.G ∧ c.R ≤ c.B ∧ ∃ h, rawHue c = some h ∧ 120 ≤ h ∧ h ≤ 180)
    ∨ (c.R < c.G ∧ c.B < c.R ∧ ∃ h, rawHue c = some h ∧ 60 ≤ h ∧ h < 120)
    ∨ (c.R < c.B ∧ c.G < c.B ∧ c.G ≤ c.R ∧ ∃ h, rawHue c = some h ∧ 240 ≤ h ∧ h < 300)
    ∨ (c.G < c.B ∧ c.R < c.G ∧ ∃ h, rawHue c = some h ∧ 180 < h ∧ h < 240) := by
  obtain ⟨r, g, b, H, S, V, A⟩ := c
  simp only
  by_cases hgray : r = g ∧ g = b
  · obtain ⟨rfl, rfl⟩ := hgray
    exact Or.inl ⟨rfl, rfl, rawHue_gray r H S V A⟩
  right
  have hcases : (g ≤ r ∧ b ≤ r ∧ b ≤ g ∧ b < r) ∨ (g ≤ r ∧ b ≤ r ∧ g < b)
      ∨ (r < g ∧ b ≤ g ∧ r ≤ b) ∨ (r < g ∧ b ≤ g ∧ b < r)
      ∨ (r < b ∧ g < b ∧ g ≤ r) ∨ (r < b ∧ g < b ∧ r < g) := by omega
  rcases hcases with ⟨c1, c2, c3, c4⟩ | ⟨c1, c2, c3⟩ | ⟨c1, c2, c3⟩ | ⟨c1, c2, c3⟩
    | ⟨c1, c2, c3⟩ | ⟨c1, c2, c3⟩
  · have eM : max r (max g b) = r := by omega
    have em : min r (min g b) = b := by omega
    have q1 : (b : ℚ) ≤ g := by exact_mod_cast c3
    have q2 : (g : ℚ) ≤ r := by exact_mod_cast c1
    have q3 : (b : ℚ) < r := by exact_mod_cast c4
    obtain ⟨f1, f2, _⟩ := @quot_bounds ((g : ℚ) - b) ((r : ℚ) - b) 0 1 (by linarith)
      (by linarith) (by linarith)
    refine Or.inl ⟨c1, c3, c4, 60 * (((g : ℚ) - b) / ((r : ℚ) - b)), ?_, by linarith, by linarith⟩
    have hne : (r : ℚ) - b ≠ 0 := by linarith
    simp [rawHue, maxVal3, minVal3, eM, em, fdiv, hne]
  · have eM : max r (max g b) = r := by omega
    have em : min r (min g b) = g := by omega
    have q1 : (g : ℚ) < b := by exact_mod_cast c3
    have q2 : (b : ℚ) ≤ r := by exact_mod_cast c2
    obtain ⟨f1, f2, _⟩ := @quot_bounds ((g : ℚ) - b) ((r : ℚ) - g) (-1) 0 (by linarith)
      (by linarith) (by linarith)
    have f4 : ((g : ℚ) - b) / ((r : ℚ) - g) < 0 :=
      div_neg_of_neg_of_pos (by linarith) (by linarith)
    refine Or.inr (Or.inl ⟨c2, c3, 60 * (((g : ℚ) - b) / ((r : ℚ) - g)), ?_,
      by linarith, by linarith⟩)
    have hne : (r : ℚ) - g ≠ 0 := by linarith
    simp [rawHue, maxVal3, minVal3, eM, em, fdiv, hne]
  · have eM : max r (max g b) = g := by omega
    have em : min r (min g b) = r := by omega
    have q1 : (r : ℚ) < g := by exact_mod_cast c1
    have q2 : (b : ℚ) ≤ g := by exact_mod_cast c2
    have q3 : (r : ℚ) ≤ b := by exact_mod_cast c3
    obtain ⟨f1, f2, _⟩ := @quot_bounds ((b : ℚ) - r) ((g : ℚ) - r) 0 1 (by linarith)
      (by linarith) (by linarith)
    refine Or.inr (Or.inr (Or.inl ⟨c1, c2, c3, 60 * (2 + ((b : ℚ) - r) / ((g : ℚ) - r)), ?_,
      by linarith, by linarith⟩))
    have hne : (g : ℚ) - r ≠ 0 := by linarith
    have hgr : ¬ g = r := by omega
    simp [rawHue, maxVal3, minVal3, eM, em, fdiv, hne, hgr]
  · have eM : max r (max g b) = g := by omega
    have em : min r (min g b) = b := by omega
    have q1 : (r : ℚ) < g := by exact_mod_cast c1
    have q2 : (b : ℚ) ≤ g := by exact_mod_cast c2
    have q3 : (b : ℚ) < r := by exact_mod_cast c3
    obtain ⟨f1, f2, _⟩ := @quot_bounds ((b : ℚ) - r) ((g : ℚ) - b) (-1) 0 (by linarith)
      (by linarith) (by linarith)
    have f4 : ((b : ℚ) - r) / ((g : ℚ) - b) < 0 :=
      div_neg_of_neg_of_pos (by linarith) (by linarith)
    refine Or.inr (Or.inr (Or.inr (Or.inl ⟨c1, c3, 60 * (2 + ((b : ℚ) - r) / ((g : ℚ) - b)), ?_,
      by linarith, by linarith⟩)))
    have hne : (g : ℚ) - b ≠ 0 := by linarith
    have hgr : ¬ g = r := by omega
    simp [rawHue, maxVal3, minVal3, eM, em, fdiv, hne, hgr]
  · have eM : max r (max g b) = b := by omega
    have em : min r (min g b) = g := by omega
    have q1 : (r : ℚ) < b := by exact_mod_cast c1
    have q2 : (g : ℚ) < b := by exact_mod_cast c2
    have q3 : (g : ℚ) ≤ r := by exact_mod_cast c3
    obtain ⟨f1, f2, _⟩ := @quot_bounds ((r : ℚ) - g) ((b : ℚ) - g) 0 1 (by linarith)
      (by linarith) (by linarith)
    have f4 : ((r : ℚ) - g) / ((b : ℚ) - g) < 1 := by
      rw [div_lt_one (by linarith)]; linarith
    refine Or.inr (Or.inr (Or.inr (Or.inr (Or.inl ⟨c1, c2, c3,
      60 * (4 + ((r : ℚ) - g) / ((b : ℚ) - g)), ?_, by linarith, by linarith⟩))))
    have hne : (b : ℚ) - g ≠ 0 := by linarith
    have hbr : ¬ b = r := by omega
    have hbg : ¬ b = g := by omega
    simp [rawHue, maxVal3, minVal3, eM, em, fdiv, hne, hbr, hbg]
  · have eM : max r (max g b) = b := by omega
    have em : min r (min g b) = r := by omega
    have q1 : (r : ℚ) < b := by exact_mod_cast c1
    have q2 : (g : ℚ) < b := by exact_mod_cast c2
    have q3 : (r : ℚ) < g := by exact_mod_cast c3
    have f1 : -1 < ((r : ℚ) - g) / ((b : ℚ) - r) := by
      rw [lt_div_iff₀ (by linarith)]; linarith
    have f4 : ((r : ℚ) - g) / ((b : ℚ) - r) < 0 :=
      div_neg_of_neg_of_pos (by linarith) (by linarith)
    refine Or.inr (Or.inr (Or.inr (Or.inr (Or.inr ⟨c2, c3,
      60 * (4 + ((r : ℚ) - g) / ((b : ℚ) - r)), ?_, by linarith, by linarith⟩))))
    have hne : (b : ℚ) - r ≠ 0 := by linarith
    have hbr : ¬ b = r := by omega
    have hbg : ¬ b = g := by omega
    simp [rawHue, maxVal3, minVal3, eM, em, fdiv, hne, hbr, hbg]

theorem rawHue_eq_none_iff (c : Color) : rawHue c = none ↔ (c.R = c.G ∧ c.G = c.B) := by
  constructor
  · intro hn
    rcases rawHue_cases c with ⟨e1, e2, _⟩ | ⟨_, _, _, h, hr, _⟩ | ⟨_, _, h, hr, _⟩
      | ⟨_, _, _, h, hr, _⟩ | ⟨_, _, h, hr, _⟩ | ⟨_, _, _, h, hr, _⟩ | ⟨_, _, h, hr, _⟩
    · exact ⟨e1, e2⟩
    all_goals (rw [hn] at hr; exact absurd hr (by simp))
  · rintro ⟨e1, e2⟩
    obtain ⟨r, g, b, H, S, V, A⟩ := c
    simp only at e1 e2
    subst e1 e2
    exact rawHue_gray r H S V A

theorem rawHue_ge (c : Color) (h : ℚ) (hr : rawHue c = some h) : -60 ≤ h := by
  rcases rawHue_cases c with ⟨_, _, e⟩ | ⟨_, _, _, h', hr', b0, b1⟩ | ⟨_, _, h', hr', b0, b1⟩
    | ⟨_, _, _, h', hr', b0, b1⟩ | ⟨_, _, h', hr', b0, b1⟩ | ⟨_, _, _, h', hr', b0, b1⟩
    | ⟨_, _, h', hr', b0, b1⟩
  · rw [e] at hr; exact absurd hr (by simp)
  all_goals (rw [hr] at hr'; cases hr'; linarith)

/-- The stored hue of a raw hue in `[lo, hi]`, inside [0,359]. -/
theorem hue_of_arc {h : ℚ} (lo hi : Int) (h0 : 0 ≤ lo) (h1 : hi ≤ 359)
    (hlo : (lo : ℚ) ≤ h) (hhi : h ≤ hi) :
    lo ≤ Int.tmod (round (regularize (some h))) 360
      ∧ Int.tmod (round (regularize (some h))) 360 ≤ hi := by
  have hq0 : (0 : ℚ) ≤ lo := by exact_mod_cast h0
  have hq1 : (hi : ℚ) ≤ 359 := by exact_mod_cast h1
  have hreg : regularize (some h) = h := regularizeLoop_of_nonneg (by linarith)
  rw [hreg]
  obtain ⟨b0, b1⟩ := hue_int_bounds lo hi (abs_round_sub_le h) hlo hhi
  rw [Int.tmod_eq_emod (by omega) (by norm_num)]
  omega

/-- The stored hue of a raw hue in [-60,0): in [300,359], or 0 when the turned
hue rounds to 360. -/
theorem hue_of_neg_arc {h : ℚ} (hlo : -60 ≤ h) (hhi : h < 0) :
    (300 ≤ Int.tmod (round (regularize (some h))) 360
      ∧ Int.tmod (round (regularize (some h))) 360 ≤ 359)
    ∨ Int.tmod (round (regularize (some h))) 360 = 0 := by
  have hreg : regularize (some h) = h + 360 := regularizeLoop_of_neg_of_ge hhi (by linarith)
  rw [hreg]
  obtain ⟨b0, b1⟩ := hue_int_bounds 300 360 (abs_round_sub_le (h + 360))
    (by push_cast; linarith) (by push_cast; linarith)
  rw [Int.tmod_eq_emod (by omega) (by norm_num)]
  omega

/-- The stored hue of an integral raw hue in [0,359] is that integer. -/
theorem hue_of_int (n : Int) (h0 : 0 ≤ n) (h1 : n ≤ 359) :
    Int.tmod (round (regularize (some (n : ℚ)))) 360 = n := by
  have := @hue_of_arc (n : ℚ) n n h0 h1 le_rfl le_rfl
  omega

/-- The stored hue of the raw hue -60 is 300. -/
theorem hue_of_neg_sixty : Int.tmod (round (regularize (some (-60)))) 360 = 300 := by
  have h : regularize (some (-60)) = ((300 : Int) : ℚ) := by
    have := @regularizeLoop_of_neg_of_ge (-60) (by norm_num) (by norm_num)
    simp only [regularize, this]; norm_num
  rw [h, round_intCast]
  rfl

/-- The hue that `MakeHSV` stores for a colour that is not a gray. -/
theorem MakeHSV_H_of_chromatic (c : Color) (hne : ¬ (c.R = c.G ∧ c.G = c.B)) :
    (MakeHSV c).H = Int.tmod (round (regularize (rawHue c))) 360 := by
  have hM : maxVal [c.R, c.G, c.B] ≠ 0 := by
    rw [maxVal3]
    have : max c.R (max c.G c.B) ≠ 0 := by omega
    exact_mod_cast this
  rw [MakeHSV_of_max_ne_zero c hM]

/-- The value and saturation that `MakeHSV` stores for a colour that is not a
gray. -/
theorem MakeHSV_V_S_of_chromatic (c : Color) (hne : ¬ (c.R = c.G ∧ c.G = c.B)) :
    (MakeHSV c).V = ((max c.R (max c.G c.B) : Nat) : ℚ) / 255
    ∧ (MakeHSV c).S = (((max c.R (max c.G c.B) : Nat) : ℚ) - ((min c.R (min c.G c.B) : Nat) : ℚ))
        / ((max c.R (max c.G c.B) : Nat) : ℚ) := by
  have hM : maxVal [c.R, c.G, c.B] ≠ 0 := by
    rw [maxVal3]
    have : max c.R (max c.G c.B) ≠ 0 := by omega
    exact_mod_cast this
  rw [MakeHSV_of_max_ne_zero c hM]
  simp only [maxVal3, minVal3]
  exact ⟨trivial, trivial⟩

/-- The stored hue, branch by branch of `MakeHSV`, for a colour that is not a
gray. -/
theorem MakeHSV_H_cases (c : Color) (hne : ¬ (c.R = c.G ∧ c.G = c.B)) :
    (c.G ≤ c.R ∧ c.B ≤ c.G ∧ c.B < c.R ∧ 0 ≤ (MakeHSV c).H ∧ (MakeHSV c).H ≤ 60)
    ∨ (c.B ≤ c.R ∧ c.G < c.B
        ∧ ((300 ≤ (MakeHSV c).H ∧ (MakeHSV c).H ≤ 359) ∨ (MakeHSV c).H = 0))
    ∨ (c.R < c.G ∧ c.B ≤ c.G ∧ c.R ≤ c.B ∧ 120 ≤ (MakeHSV c).H ∧ (MakeHSV c).H ≤ 180)
    ∨ (c.R < c.G ∧ c.B < c.R ∧ 60 ≤ (MakeHSV c).H ∧ (MakeHSV c).H ≤ 120)
    ∨ (c.R < c.B ∧ c.G < c.B ∧ c.G ≤ c.R ∧ 240 ≤ (MakeHSV c).H ∧ (MakeHSV c).H ≤ 300)
    ∨ (c.G < c.B ∧ c.R < c.G ∧ 180 ≤ (MakeHSV c).H ∧ (MakeHSV c).H ≤ 240) := by
  rw [MakeHSV_H_of_chromatic c hne]
  rcases rawHue_cases c with ⟨e1, e2, _⟩ | ⟨c1, c2, c3, h, hr, b0, b1⟩ | ⟨c1, c2, h, hr, b0, b1⟩
    | ⟨c1, c2, c3, h, hr, b0, b1⟩ | ⟨c1, c2, h, hr, b0, b1⟩ | ⟨c1, c2, c3, h, hr, b0, b1⟩
    | ⟨c1, c2, h, hr, b0, b1⟩
  · exact absurd ⟨e1, e2⟩ hne
  · rw [hr]
    exact Or.inl ⟨c1, c2, c3, hue_of_arc 0 60 (by norm_num) (by norm_num)
      (by push_cast; linarith) (by push_cast; linarith)⟩
  · rw [hr]
    exact Or.inr (Or.inl ⟨c1, c2, hue_of_neg_arc b0 b1⟩)
  · rw [hr]
    exact Or.inr (Or.inr (Or.inl ⟨c1, c2, c3, hue_of_arc 120 180 (by norm_num) (by norm_num)
      (by push_cast; linarith) (by push_cast; linarith)⟩))
  · rw [hr]
    exact Or.inr (Or.inr (Or.inr (Or.inl ⟨c1, c2, hue_of_arc 60 120 (by norm_num) (by norm_num)
      (by push_cast; linarith) (by push_cast; linarith)⟩)))
  · rw [hr]
    exact Or.inr (Or.inr (Or.inr (Or.inr (Or.inl ⟨c1, c2, c3,
      hue_of_arc 240 300 (by norm_num) (by norm_num)
      (by push_cast; linarith) (by push_cast; linarith)⟩))))
  · rw [hr]
    exact Or.inr (Or.inr (Or.inr (Or.inr (Or.inr ⟨c1, c2,
      hue_of_arc 180 240 (by norm_num) (by norm_num)
      (by push_cast; linarith) (by push_cast; linarith)⟩))))

/-- The hue formulas of two channels that tie for the maximum. -/
theorem hue_formulas_at_ties (c : Color) :
    (c.R = c.G ∧ c.B < c.R → hueFromR c = some 60 ∧ hueFromG c = some 60)
    ∧ (c.G = c.B ∧ c.R < c.G → hueFromG c = some 180 ∧ hueFromB c = some 180)
    ∧ (c.R = c.B ∧ c.G < c.R → hueFromR c = some (-60) ∧ hueFromB c = some 300) := by
  obtain ⟨r, g, b, H, S, V, A⟩ := c
  simp only
  refine ⟨?_, ?_, ?_⟩
  · rintro ⟨rfl, hb⟩
    have eM : max r (max r b) = r := by omega
    have em : min r (min r b) = b := by omega
    have q : (b : ℚ) < r := by exact_mod_cast hb
    have hne : (r : ℚ) - b ≠ 0 := by linarith
    have hne2 : (b : ℚ) - r ≠ 0 := by linarith
    constructor
    · simp only [hueFromR, maxVal3, minVal3, eM, em, fdiv, hne, if_false, Option.map_some']
      congr 1
      field_simp
    · simp only [hueFromG, maxVal3, minVal3, eM, em, fdiv, hne, if_false, Option.map_some']
      congr 1
      field_simp
      ring
  · rintro ⟨rfl, hr⟩
    have eM : max r (max g g) = g := by omega
    have em : min r (min g g) = r := by omega
    have q : (r : ℚ) < g := by exact_mod_cast hr
    have hne : (g : ℚ) - r ≠ 0 := by linarith
    constructor
    · simp only [hueFromG, maxVal3, minVal3, eM, em, fdiv, hne, if_false, Option.map_some']
      congr 1
      field_simp
      ring
    · simp only [hueFromB, maxVal3, minVal3, eM, em, fdiv, hne, if_false, Option.map_some']
      congr 1
      field_simp
      ring
  · rintro ⟨rfl, hg⟩
    have eM : max r (max g r) = r := by omega
    have em : min r (min g r) = g := by omega
    have q : (g : ℚ) < r := by exact_mod_cast hg
    have hne : (r : ℚ) - g ≠ 0 := by linarith
    constructor
    · simp only [hueFromR, maxVal3, minVal3, eM, em, fdiv, hne, if_false, Option.map_some']
      congr 1
      field_simp
      ring
    · simp only [hueFromB, maxVal3, minVal3, eM, em, fdiv, hne, if_false, Option.map_some']
      congr 1
      field_simp
      ring

/-- The raw hue when two channels tie for the maximum or for the minimum. -/
theorem rawHue_at_ties (c : Color) :
    (c.G = c.R ∧ c.B < c.R → rawHue c = some 60)
    ∧ (c.B = c.R ∧ c.G < c.B → rawHue c = some (-60))
    ∧ (c.B = c.G ∧ c.R < c.G → rawHue c = some 180)
    ∧ (c.G = c.B ∧ c.B < c.R → rawHue c = some 0)
    ∧ (c.B = c.R ∧ c.R < c.G → rawHue c = some 120)
    ∧ (c.R = c.G ∧ c.G < c.B → rawHue c = some 240) := by
  obtain ⟨r, g, b, H, S, V, A⟩ := c
  simp only
  refine ⟨?_, ?_, ?_, ?_, ?_, ?_⟩
  · rintro ⟨rfl, hb⟩
    have eM : max g (max g b) = g := by omega
    have em : min g (min g b) = b := by omega
    have q : (b : ℚ) < g := by exact_mod_cast hb
    have hne : (g : ℚ) - b ≠ 0 := by linarith
    simp only [rawHue, maxVal3, minVal3, eM, em, fdiv, hne, if_true, if_false, Option.map_some']
    congr 1
    field_simp
  · rintro ⟨rfl, hg⟩
    have eM : max b (max g b) = b := by omega
    have em : min b (min g b) = g := by omega
    have q : (g : ℚ) < b := by exact_mod_cast hg
    have hne : (b : ℚ) - g ≠ 0 := by linarith
    simp only [rawHue, maxVal3, minVal3, eM, em, fdiv, hne, if_true, if_false, Option.map_some']
    congr 1
    field_simp
    ring
  · rintro ⟨rfl, hr⟩
    have eM : max r (max b b) = b := by omega
    have em : min r (min b b) = r := by omega
    have q : (r : ℚ) < b := by exact_mod_cast hr
    have hne : (b : ℚ) - r ≠ 0 := by linarith
    have hbr : ¬ (b : ℚ) = r := by linarith
    simp only [rawHue, maxVal3, minVal3, eM, em, fdiv, hne, hbr, if_true, if_false,
      Option.map_some']
    congr 1
    field_simp
    ring
  · rintro ⟨rfl, hr⟩
    have eM : max r (max g g) = r := by omega
    have em : min r (min g g) = g := by omega
    have q : (g : ℚ) < r := by exact_mod_cast hr
    have hne : (r : ℚ) - g ≠ 0 := by linarith
    simp only [rawHue, maxVal3, minVal3, eM, em, fdiv, hne, if_true, if_false, Option.map_some']
    congr 1
    norm_num
  · rintro ⟨rfl, hg⟩
    have eM : max b (max g b) = g := by omega
    have em : min b (min g b) = b := by omega
    have q : (b : ℚ) < g := by exact_mod_cast hg
    have hne : (g : ℚ) - b ≠ 0 := by linarith
    have hgb : ¬ (g : ℚ) = b := by linarith
    simp only [rawHue, maxVal3, minVal3, eM, em, fdiv, hne, hgb, if_true, if_false,
      Option.map_some']
    congr 1
    norm_num
  · rintro ⟨rfl, hb⟩
    have eM : max r (max r b) = b := by omega
    have em : min r (min r b) = r := by omega
    have q : (r : ℚ) < b := by exact_mod_cast hb
    have hne : (b : ℚ) - r ≠ 0 := by linarith
    have hbr : ¬ (b : ℚ) = r := by linarith
    simp only [rawHue, maxVal3, minVal3, eM, em, fdiv, hne, hbr, if_true, if_false,
      Option.map_some']
    congr 1
    norm_num

/-- The stored hue when two channels tie for the maximum or for the minimum. -/
theorem MakeHSV_H_at_ties (c : Color) :
    (c.G = c.R ∧ c.B < c.R → (MakeHSV c).H = 60)
    ∧ (c.B = c.R ∧ c.G < c.B → (MakeHSV c).H = 300)
    ∧ (c.B = c.G ∧ c.R < c.G → (MakeHSV c).H = 180)
    ∧ (c.G = c.B ∧ c.B < c.R → (MakeHSV c).H = 0)
    ∧ (c.B = c.R ∧ c.R < c.G → (MakeHSV c).H = 120)
    ∧ (c.R = c.G ∧ c.G < c.B → (MakeHSV c).H = 240) := by
  obtain ⟨t1, t2, t3, t4, t5, t6⟩ := rawHue_at_ties c
  have e60 := hue_of_int 60 (by norm_num) (by norm_num)
  have e180 := hue_of_int 180 (by norm_num) (by norm_num)
  have e0 := hue_of_int 0 (by norm_num) (by norm_num)
  have e120 := hue_of_int 120 (by norm_num) (by norm_num)
  have e240 := hue_of_int 240 (by norm_num) (by norm_num)
  push_cast at e60 e180 e0 e120 e240
  refine ⟨?_, ?_, ?_, ?_, ?_, ?_⟩ <;> intro h
  · rw [MakeHSV_H_of_chromatic c (by omega), t1 h]; exact e60
  · rw [MakeHSV_H_of_chromatic c (by omega), t2 h]; exact hue_of_neg_sixty
  · rw [MakeHSV_H_of_chromatic c (by omega), t3 h]; exact e180
  · rw [MakeHSV_H_of_chromatic c (by omega), t4 h]; exact e0
  · rw [MakeHSV_H_of_chromatic c (by omega), t5 h]; exact e120
  · rw [MakeHSV_H_of_chromatic c (by omega), t6 h]; exact e240

/-- The plateaus of `MakeHSV`: where the stored hue of a colour that is not a
gray lies when a given channel is the largest, or the smallest. -/
theorem MakeHSV_plateaus (c : Color) (hne : ¬ (c.R = c.G ∧ c.G = c.B)) :
    (c.R = max c.R (max c.G c.B) → (MakeHSV c).H ≤ 60 ∨ 300 ≤ (MakeHSV c).H)
    ∧ (c.G = max c.R (max c.G c.B) → 60 ≤ (MakeHSV c).H ∧ (MakeHSV c).H ≤ 180)
    ∧ (c.B = max c.R (max c.G c.B) → 180 ≤ (MakeHSV c).H ∧ (MakeHSV c).H ≤ 300)
    ∧ (c.R = min c.R (min c.G c.B) → 120 ≤ (MakeHSV c).H ∧ (MakeHSV c).H ≤ 240)
    ∧ (c.G = min c.R (min c.G c.B) → (MakeHSV c).H = 0 ∨ 240 ≤ (MakeHSV c).H)
    ∧ (c.B = min c.R (min c.G c.B) → (MakeHSV c).H ≤ 120) := by
  have hc := MakeHSV_H_cases c hne
  obtain ⟨t1, t2, t3, t4, t5, t6⟩ := MakeHSV_H_at_ties c
  refine ⟨?_, ?_, ?_, ?_, ?_, ?_⟩ <;> intro h <;>
    rcases hc with hc | hc | hc | hc | hc | hc <;> omega

/-- The colour `FromRGB(255,2,0)`: the hue 60 * 2/255 rounds to 0. -/
theorem FromRGB_255_2_0 :
    FromRGB 255 2 0 = { R := 255, G := 2, B := 0, H := 0, S := 1, V := 1, A := 255 } := by
  have hreg : regularizeLoop (8 / 17) = 8 / 17 := regularizeLoop_of_nonneg (by norm_num)
  have hr : round (8 / 17) = 0 := round_eq_of_nonneg (by norm_num) (by norm_num) (by norm_num)
  norm_num [FromRGB, FromARGB, MakeHSV, rawHue, maxVal3, minVal3, fdiv, regularize, hreg, hr]

theorem rawHue_255_2_0 :
    rawHue { R := 255, G := 2, B := 0, H := 0, S := 0, V := 0, A := 255 } = some (8 / 17) := by
  norm_num [rawHue, maxVal3, minVal3, fdiv]

/-! ## Auxiliary facts: the round trip -/

/-- A channel recomputed as `uint8(round(y))` is within 2 of the channel `n`
when `y` is in [0,255] and within 17/8 of `n`. -/
theorem chan_close (y : ℚ) (n : Nat) (h0 : 0 ≤ y) (h1 : y ≤ 255) (h : |y - n| ≤ 17/8) :
    chanDist (toUint8 (round y)) n ≤ 2 := by
  obtain ⟨hlo, hhi⟩ := round_mem_of_mem h0 h1
  unfold chanDist
  rw [toUint8_of_lt hlo hhi]
  have hr := abs_le.mp (abs_round_sub_le y)
  have hy := abs_le.mp h
  have h3 : ((round y - (n : Int) : Int) : ℚ) < 3 := by push_cast; linarith [hr.2, hy.2]
  have h4 : (-3 : ℚ) < ((round y - (n : Int) : Int) : ℚ) := by push_cast; linarith [hr.1, hy.1]
  have h5 : round y - (n : Int) < 3 := by exact_mod_cast h3
  have h6 : -3 < round y - (n : Int) := by exact_mod_cast h4
  omega

/-- The form of `chan_close` with the distance bound as two inequalities. -/
theorem chan_close2 (y : ℚ) (n : Nat) (h0 : 0 ≤ y) (h1 : y ≤ 255) (h2 : -(17/8) ≤ y - n)
    (h3 : y - n ≤ 17/8) : chanDist (toUint8 (round y)) n ≤ 2 :=
  chan_close y n h0 h1 (abs_le.mpr ⟨h2, h3⟩)

set_option maxHeartbeats 1600000 in
/-- The arithmetic heart of the round trip. A colour `c` carries V = M/255 and
S = (M - m)/M with 0 ≤ m < M ≤ 255, and an integer hue in [0,359] within 1/2 of
a rational hue `x`; the channels `r`, `g`, `b` are the ones that the hue `x`
stands for, sector by sector (the last alternative is the sector [300,360]
turned back by 360 degrees). Then `MakeRGB c` has every channel within 2 of
`r`, `g`, `b`. -/
theorem roundtrip_core (c : Color) (r g b : Nat) (M m x : ℚ)
    (hm0 : 0 ≤ m) (hmM : m < M) (hM : M ≤ 255)
    (hV : c.V = M / 255) (hS : c.S = (M - m) / M)
    (hH0 : 0 ≤ c.H) (hH1 : c.H < 360)
    (hx : |(c.H : ℚ) - x| ≤ 1/2)
    (hd : (0 ≤ x ∧ x ≤ 60 ∧ (r : ℚ) = M ∧ (b : ℚ) = m ∧ 60 * ((g : ℚ) - m) = (M - m) * x)
      ∨ (60 ≤ x ∧ x ≤ 120 ∧ (g : ℚ) = M ∧ (b : ℚ) = m ∧ 60 * (M - r) = (M - m) * (x - 60))
      ∨ (120 ≤ x ∧ x ≤ 180 ∧ (g : ℚ) = M ∧ (r : ℚ) = m ∧ 60 * ((b : ℚ) - m) = (M - m) * (x - 120))
      ∨ (180 ≤ x ∧ x ≤ 240 ∧ (b : ℚ) = M ∧ (r : ℚ) = m ∧ 60 * (M - g) = (M - m) * (x - 180))
      ∨ (240 ≤ x ∧ x ≤ 300 ∧ (b : ℚ) = M ∧ (g : ℚ) = m ∧ 60 * ((r : ℚ) - m) = (M - m) * (x - 240))
      ∨ (300 ≤ x ∧ x ≤ 360 ∧ (r : ℚ) = M ∧ (g : ℚ) = m ∧ 60 * (M - b) = (M - m) * (x - 300))
      ∨ (-60 ≤ x ∧ x ≤ 0 ∧ (r : ℚ) = M ∧ (g : ℚ) = m ∧ 60 * ((b : ℚ) - m) = (M - m) * (-x))) :
    chanDist (MakeRGB c).R r ≤ 2 ∧ chanDist (MakeRGB c).G g ≤ 2
      ∧ chanDist (MakeRGB c).B b ≤ 2 := by
  have hM0 : M ≠ 0 := by linarith
  have hmne : m ≠ M := ne_of_lt hmM
  have hdpos : 0 ≤ M - m := by linarith
  have hxx := abs_le.mp hx
  have p1 := mul_le_mul_of_nonneg_left hxx.1 hdpos
  have p2 := mul_le_mul_of_nonneg_left hxx.2 hdpos
  rcases hd with hd | hd | hd | hd | hd | hd | hd
  · obtain ⟨x0, x1, e1, e2, e3⟩ := hd
    obtain ⟨i0, i1⟩ := hue_int_bounds (0) 60 hx (by simpa using x0) (by simpa using x1)
    obtain hk | hk : c.H < 60 ∨ c.H = 60 := by omega
    · have q0 : ((0 : Int) : ℚ) ≤ c.H := by exact_mod_cast i0
      have q1 : (c.H : ℚ) ≤ ((60 : Int) : ℚ) := by exact_mod_cast i1
      have s0 := mul_le_mul_of_nonneg_left q0 hdpos
      have s1 := mul_le_mul_of_nonneg_left q1 hdpos
      rw [MakeRGB_chromatic_sector c M m 0 hM0 hmne hV hS (by omega) (by omega)]
      simp only [Int.reduceEq, reduceIte, Int.cast_zero, Int.cast_one, Int.cast_ofNat]
        at s0 s1 ⊢
      refine ⟨chan_close2 _ _ ?_ ?_ ?_ ?_, chan_close2 _ _ ?_ ?_ ?_ ?_,
        chan_close2 _ _ ?_ ?_ ?_ ?_⟩ <;>
        linarith only [hm0, hmM, hM, p1, p2, e1, e2, e3, x0, x1, s0, s1]
    · have t1 : (c.H : ℚ) = 60 := by exact_mod_cast hk
      rw [MakeRGB_chromatic_sector c M m 1 hM0 hmne hV hS (by omega) (by omega)]
      simp only [Int.reduceEq, reduceIte, Int.cast_zero, Int.cast_one, Int.cast_ofNat, t1]
        at p1 p2 ⊢
      refine ⟨chan_close2 _ _ ?_ ?_ ?_ ?_, chan_close2 _ _ ?_ ?_ ?_ ?_,
        chan_close2 _ _ ?_ ?_ ?_ ?_⟩ <;>
        linarith only [hm0, hmM, hM, p1, p2, e1, e2, e3, x0, x1, t1]
  · obtain ⟨x0, x1, e1, e2, e3⟩ := hd
    obtain ⟨i0, i1⟩ := hue_int_bounds (60) 120 hx (by simpa using x0) (by simpa using x1)
    obtain hk | hk : c.H < 120 ∨ c.H = 120 := by omega
    · have q0 : ((60 : Int) : ℚ) ≤ c.H := by exact_mod_cast i0
      have q1 : (c.H : ℚ) ≤ ((120 : Int) : ℚ) := by exact_mod_cast i1
      have s0 := mul_le_mul_of_nonneg_left q0 hdpos
      have s1 := mul_le_mul_of_nonneg_left q1 hdpos
      rw [MakeRGB_chromatic_sector c M m 1 hM0 hmne hV hS (by omega) (by omega)]
      simp only [Int.reduceEq, reduceIte, Int.cast_zero, Int.cast_one, Int.cast_ofNat]
        at s0 s1 ⊢
      refine ⟨chan_close2 _ _ ?_ ?_ ?_ ?_, chan_close2 _ _ ?_ ?_ ?_ ?_,
        chan_close2 _ _ ?_ ?_ ?_ ?_⟩ <;>
        linarith only [hm0, hmM, hM, p1, p2, e1, e2, e3, x0, x1, s0, s1]
    · have t1 : (c.H : ℚ) = 120 := by exact_mod_cast hk
      rw [MakeRGB_chromatic_sector c M m 2 hM0 hmne hV hS (by omega) (by omega)]
      simp only [Int.reduceEq, reduceIte, Int.cast_zero, Int.cast_one, Int.cast_ofNat, t1]
        at p1 p2 ⊢
      refine ⟨chan_close2 _ _ ?_ ?_ ?_ ?_, chan_close2 _ _ ?_ ?_ ?_ ?_,
        chan_close2 _ _ ?_ ?_ ?_ ?_⟩ <;>
        linarith only [hm0, hmM, hM, p1, p2, e1, e2, e3, x0, x1, t1]
  · obtain ⟨x0, x1, e1, e2, e3⟩ := hd
    obtain ⟨i0, i1⟩ := hue_int_bounds (120) 180 hx (by simpa using x0) (by simpa using x1)
    obtain hk | hk : c.H < 180 ∨ c.H = 180 := by omega
    · have q0 : ((120 : Int) : ℚ) ≤ c.H := by exact_mod_cast i0
      have q1 : (c.H : ℚ) ≤ ((180 : Int) : ℚ) := by exact_mod_cast i1
      have s0 := mul_le_mul_of_nonneg_left q0 hdpos
      have s1 := mul_le_mul_of_nonneg_left q1 hdpos
      rw [MakeRGB_chromatic_sector c M m 2 hM0 hmne hV hS (by omega) (by omega)]
      simp only [Int.reduceEq, reduceIte, Int.cast_zero, Int.cast_one, Int.cast_ofNat]
        at s0 s1 ⊢
      refine ⟨chan_close2 _ _ ?_ ?_ ?_ ?_, chan_close2 _ _ ?_ ?_ ?_ ?_,
        chan_close2 _ _ ?_ ?_ ?_ ?_⟩ <;>
        linarith only [hm0, hmM, hM, p1, p2, e1, e2, e3, x0, x1, s0, s1]
    · have t1 : (c.H : ℚ) = 180 := by exact_mod_cast hk
      rw [MakeRGB_chromatic_sector c M m 3 hM0 hmne hV hS (by omega) (by omega)]
      simp only [Int.reduceEq, reduceIte, Int.cast_zero, Int.cast_one, Int.cast_ofNat, t1]
        at p1 p2 ⊢
      refine ⟨chan_close2 _ _ ?_ ?_ ?_ ?_, chan_close2 _ _ ?_ ?_ ?_ ?_,
        chan_close2 _ _ ?_ ?_ ?_ ?_⟩ <;>
        linarith only [hm0, hmM, hM, p1, p2, e1, e2, e3, x0, x1, t1]
  · obtain ⟨x0, x1, e1, e2, e3⟩ := hd
    obtain ⟨i0, i1⟩ := hue_int_bounds (180) 240 hx (by simpa using x0) (by simpa using x1)
    obtain hk | hk : c.H < 240 ∨ c.H = 240 := by omega
    · have q0 : ((180 : Int) : ℚ) ≤ c.H := by exact_mod_cast i0
      have q1 : (c.H : ℚ) ≤ ((240 : Int) : ℚ) := by exact_mod_cast i1
      have s0 := mul_le_mul_of_nonneg_left q0 hdpos
      have s1 := mul_le_mul_of_nonneg_left q1 hdpos
      rw [MakeRGB_chromatic_sector c M m 3 hM0 hmne hV hS (by omega) (by omega)]
      simp only [Int.reduceEq, reduceIte, Int.cast_zero, Int.cast_one, Int.cast_ofNat]
        at s0 s1 ⊢
      refine ⟨chan_close2 _ _ ?_ ?_ ?_ ?_, chan_close2 _ _ ?_ ?_ ?_ ?_,
        chan_close2 _ _ ?_ ?_ ?_ ?_⟩ <;>
        linarith only [hm0, hmM, hM, p1, p2, e1, e2, e3, x0, x1, s0, s1]
    · have t1 : (c.H : ℚ) = 240 := by exact_mod_cast hk
      rw [MakeRGB_chromatic_sector c M m 4 hM0 hmne hV hS (by omega) (by omega)]
      simp only [Int.reduceEq, reduceIte, Int.cast_zero, Int.cast_one, Int.cast_ofNat, t1]
        at p1 p2 ⊢
      refine ⟨chan_close2 _ _ ?_ ?_ ?_ ?_, chan_close2 _ _ ?_ ?_ ?_ ?_,
        chan_close2 _ _ ?_ ?_ ?_ ?_⟩ <;>
        linarith only [hm0, hmM, hM, p1, p2, e1, e2, e3, x0, x1, t1]
  · obtain ⟨x0, x1, e1, e2, e3⟩ := hd
    obtain ⟨i0, i1⟩ := hue_int_bounds (240) 300 hx (by simpa using x0) (by simpa using x1)
    obtain hk | hk : c.H < 300 ∨ c.H = 300 := by omega
    · have q0 : ((240 : Int) : ℚ) ≤ c.H := by exact_mod_cast i0
      have q1 : (c.H : ℚ) ≤ ((300 : Int) : ℚ) := by exact_mod_cast i1
      have s0 := mul_le_mul_of_nonneg_left q0 hdpos
      have s1 := mul_le_mul_of_nonneg_left q1 hdpos
      rw [MakeRGB_chromatic_sector c M m 4 hM0 hmne hV hS (by omega) (by omega)]
      simp only [Int.reduceEq, reduceIte, Int.cast_zero, Int.cast_one, Int.cast_ofNat]
        at s0 s1 ⊢
      refine ⟨chan_close2 _ _ ?_ ?_ ?_ ?_, chan_close2 _ _ ?_ ?_ ?_ ?_,
        chan_close2 _ _ ?_ ?_ ?_ ?_⟩ <;>
        linarith only [hm0, hmM, hM, p1, p2, e1, e2, e3, x0, x1, s0, s1]
    · have t1 : (c.H : ℚ) = 300 := by exact_mod_cast hk
      rw [MakeRGB_chromatic_sector c M m 5 hM0 hmne hV hS (by omega) (by omega)]
      simp only [Int.reduceEq, reduceIte, Int.cast_zero, Int.cast_one, Int.cast_ofNat, t1]
        at p1 p2 ⊢
      refine ⟨chan_close2 _ _ ?_ ?_ ?_ ?_, chan_close2 _ _ ?_ ?_ ?_ ?_,
        chan_close2 _ _ ?_ ?_ ?_ ?_⟩ <;>
        linarith only [hm0, hmM, hM, p1, p2, e1, e2, e3, x0, x1, t1]
  · obtain ⟨x0, x1, e1, e2, e3⟩ := hd
    obtain ⟨i0, i1⟩ := hue_int_bounds (300) 360 hx (by simpa using x0) (by simpa using x1)
    have q0 : ((300 : Int) : ℚ) ≤ c.H := by exact_mod_cast i0
    have q1 : (c.H : ℚ) ≤ ((360 : Int) : ℚ) := by exact_mod_cast i1
    have s0 := mul_le_mul_of_nonneg_left q0 hdpos
    have s1 := mul_le_mul_of_nonneg_left q1 hdpos
    rw [MakeRGB_chromatic_sector c M m 5 hM0 hmne hV hS (by omega) (by omega)]
    simp only [Int.reduceEq, reduceIte, Int.cast_zero, Int.cast_one, Int.cast_ofNat]
      at s0 s1 ⊢
    refine ⟨chan_close2 _ _ ?_ ?_ ?_ ?_, chan_close2 _ _ ?_ ?_ ?_ ?_,
      chan_close2 _ _ ?_ ?_ ?_ ?_⟩ <;>
      linarith only [hm0, hmM, hM, p1, p2, e1, e2, e3, x0, x1, s0, s1]
  · obtain ⟨x0, x1, e1, e2, e3⟩ := hd
    obtain ⟨i0, i1⟩ := hue_int_bounds (-60) 0 hx (by simpa using x0) (by simpa using x1)
    have t1 : (c.H : ℚ) = 0 := by
      have : c.H = 0 := by omega
      exact_mod_cast this
    rw [MakeRGB_chromatic_sector c M m 0 hM0 hmne hV hS (by omega) (by omega)]
    simp only [Int.reduceEq, reduceIte, Int.cast_zero, Int.cast_one, Int.cast_ofNat, t1]
      at p1 p2 ⊢
    refine ⟨chan_close2 _ _ ?_ ?_ ?_ ?_, chan_close2 _ _ ?_ ?_ ?_ ?_,
      chan_close2 _ _ ?_ ?_ ?_ ?_⟩ <;>
      linarith only [hm0, hmM, hM, p1, p2, e1, e2, e3, x0, x1, t1]

/-- Round trip for a chromatic colour, from the value `h` of its raw hue and
the way `h` determines the channels in each branch of `MakeHSV`. The last
alternative is the branch `max == R` with G < B, where the raw hue is negative
and `regularize` adds 360. -/
theorem roundtrip_chromatic (c : Color) (M m h : ℚ)
    (hMax : maxVal [c.R, c.G, c.B] = M) (hMin : minVal [c.R, c.G, c.B] (by simp) = m)
    (hm0 : 0 ≤ m) (hmM : m < M) (hM : M ≤ 255) (hraw : rawHue c = some h)
    (hd : ((0 ≤ h ∧ h ≤ 60 ∧ (c.R : ℚ) = M ∧ (c.B : ℚ) = m ∧ 60 * ((c.G : ℚ) - m) = (M - m) * h)
      ∨ (60 ≤ h ∧ h ≤ 120 ∧ (c.G : ℚ) = M ∧ (c.B : ℚ) = m
          ∧ 60 * (M - c.R) = (M - m) * (h - 60))
      ∨ (120 ≤ h ∧ h ≤ 180 ∧ (c.G : ℚ) = M ∧ (c.R : ℚ) = m
          ∧ 60 * ((c.B : ℚ) - m) = (M - m) * (h - 120))
      ∨ (180 ≤ h ∧ h ≤ 240 ∧ (c.B : ℚ) = M ∧ (c.R : ℚ) = m
          ∧ 60 * (M - c.G) = (M - m) * (h - 180))
      ∨ (240 ≤ h ∧ h ≤ 300 ∧ (c.B : ℚ) = M ∧ (c.G : ℚ) = m
          ∧ 60 * ((c.R : ℚ) - m) = (M - m) * (h - 240)))
      ∨ (-60 ≤ h ∧ h < 0 ∧ (c.R : ℚ) = M ∧ (c.G : ℚ) = m
          ∧ 60 * ((c.B : ℚ) - m) = (M - m) * (-h))) :
    chanDist (MakeRGB (MakeHSV c)).R c.R ≤ 2 ∧ chanDist (MakeRGB (MakeHSV c)).G c.G ≤ 2
      ∧ chanDist (MakeRGB (MakeHSV c)).B c.B ≤ 2 := by
  have hMne : maxVal [c.R, c.G, c.B] ≠ 0 := by rw [hMax]; linarith
  rw [MakeHSV_of_max_ne_zero c hMne, hMax, hMin, hraw]
  rcases hd with hd | hd
  · -- the raw hue is in [0,300]: no turn, no wrap
    have hb : 0 ≤ h ∧ h ≤ 300 := by
      rcases hd with hd | hd | hd | hd | hd <;> exact ⟨by linarith [hd.1], by linarith [hd.2.1]⟩
    have hreg : regularize (some h) = h := regularizeLoop_of_nonneg hb.1
    rw [hreg]
    obtain ⟨t0, t1, t2 | t2⟩ := hue_round_tmod hb.1 (by linarith [hb.2] : h < 360)
    · refine roundtrip_core _ c.R c.G c.B M m h hm0 hmM hM rfl rfl t0 t1 ?_ ?_
      · simp only [t2.1]; exact abs_round_sub_le h
      · rcases hd with hd | hd | hd | hd | hd
        · exact Or.inl hd
        · exact Or.inr (Or.inl hd)
        · exact Or.inr (Or.inr (Or.inl hd))
        · exact Or.inr (Or.inr (Or.inr (Or.inl hd)))
        · exact Or.inr (Or.inr (Or.inr (Or.inr (Or.inl hd))))
    · exfalso
      have hr := abs_le.mp (abs_round_sub_le h)
      rw [t2.2] at hr
      push_cast at hr
      linarith [hr.1, hb.2]
  · -- the raw hue is in [-60,0): one turn, and 360 wraps to 0
    obtain ⟨x0, x1, e1, e2, e3⟩ := hd
    have hreg : regularize (some h) = h + 360 := regularizeLoop_of_neg_of_ge x1 (by linarith)
    rw [hreg]
    obtain ⟨t0, t1, t2 | t2⟩ := hue_round_tmod (by linarith : 0 ≤ h + 360) (by linarith : h + 360 < 360)
    · refine roundtrip_core _ c.R c.G c.B M m (h + 360) hm0 hmM hM rfl rfl t0 t1 ?_ ?_
      · simp only [t2.1]; exact abs_round_sub_le (h + 360)
      · refine Or.inr (Or.inr (Or.inr (Or.inr (Or.inr (Or.inl ⟨by linarith, by linarith, e1, e2, ?_⟩)))))
        linarith
    · have hr := abs_le.mp (abs_round_sub_le (h + 360))
      rw [t2.2] at hr
      push_cast at hr
      refine roundtrip_core _ c.R c.G c.B M m h hm0 hmM hM rfl rfl t0 t1 ?_ ?_
      · simp only [t2.1]
        rw [abs_le]
        constructor <;> push_cast <;> linarith [hr.1, hr.2]
      · exact Or.inr (Or.inr (Or.inr (Or.inr (Or.inr (Or.inr ⟨x0, x1.le, e1, e2, e3⟩)))))

/-- The round trip of a gray is exact. -/
theorem roundtrip_gray (k : Nat) (hk : k < 256) (h : Int) (s v : ℚ) (a : Nat) :
    MakeRGB (MakeHSV { R := k, G := k, B := k, H := h, S := s, V := v, A := a })
      = { R := k, G := k, B := k, H := 0, S := 0, V := (k : ℚ) / 255, A := a } := by
  rw [MakeHSV_gray, MakeRGB_of_S_zero _ rfl]
  have e : (k : ℚ) / 255 * 255 = k := by field_simp
  simp only [e, round_natCast, toUint8_natCast hk]

/-- The round trip RGB -> HSV -> RGB moves no channel by more than 2. -/
theorem roundtrip_MakeHSV_MakeRGB (r g b : Nat) (hr : r < 256) (hg : g < 256) (hb : b < 256)
    (h0 : Int) (s0 v0 : ℚ) (a : Nat) :
    chanDist (MakeRGB (MakeHSV { R := r, G := g, B := b, H := h0, S := s0, V := v0, A := a })).R r ≤ 2
    ∧ chanDist (MakeRGB (MakeHSV { R := r, G := g, B := b, H := h0, S := s0, V := v0, A := a })).G g ≤ 2
    ∧ chanDist (MakeRGB (MakeHSV { R := r, G := g, B := b, H := h0, S := s0, V := v0, A := a })).B b ≤ 2 := by
  by_cases hgray : r = g ∧ g = b
  · obtain ⟨rfl, rfl⟩ := hgray
    rw [roundtrip_gray r hr]
    simp [chanDist_self]
  have hrq : (r : ℚ) ≤ 255 := by exact_mod_cast Nat.lt_succ_iff.mp hr
  have hgq : (g : ℚ) ≤ 255 := by exact_mod_cast Nat.lt_succ_iff.mp hg
  have hbq : (b : ℚ) ≤ 255 := by exact_mod_cast Nat.lt_succ_iff.mp hb
  have hr0 : (0 : ℚ) ≤ r := Nat.cast_nonneg r
  have hg0 : (0 : ℚ) ≤ g := Nat.cast_nonneg g
  have hb0 : (0 : ℚ) ≤ b := Nat.cast_nonneg b
  have hcases : (g ≤ r ∧ b ≤ r ∧ b ≤ g ∧ b < r) ∨ (g ≤ r ∧ b ≤ r ∧ g < b)
      ∨ (r < g ∧ b ≤ g ∧ r ≤ b) ∨ (r < g ∧ b ≤ g ∧ b < r)
      ∨ (r < b ∧ g < b ∧ g ≤ r) ∨ (r < b ∧ g < b ∧ r < g) := by omega
  rcases hcases with ⟨c1, c2, c3, c4⟩ | ⟨c1, c2, c3⟩ | ⟨c1, c2, c3⟩ | ⟨c1, c2, c3⟩
    | ⟨c1, c2, c3⟩ | ⟨c1, c2, c3⟩
  · -- max == R, G >= B
    have eM : max r (max g b) = r := by omega
    have em : min r (min g b) = b := by omega
    have q1 : (b : ℚ) ≤ g := by exact_mod_cast c3
    have q2 : (g : ℚ) ≤ r := by exact_mod_cast c1
    have q3 : (b : ℚ) < r := by exact_mod_cast c4
    obtain ⟨f1, f2, f3⟩ := @quot_bounds ((g : ℚ) - b) ((r : ℚ) - b) 0 1 (by linarith)
      (by linarith) (by linarith)
    refine roundtrip_chromatic _ r b (60 * (((g : ℚ) - b) / ((r : ℚ) - b))) ?_ ?_ hb0 q3 hrq ?_ ?_
    · rw [maxVal3, eM]
    · rw [minVal3, em]
    · have hne : (r : ℚ) - b ≠ 0 := by linarith
      simp [rawHue, maxVal3, minVal3, eM, em, fdiv, hne]
    · generalize ((g : ℚ) - b) / ((r : ℚ) - b) = q at f1 f2 f3 ⊢
      exact Or.inl (Or.inl ⟨by linarith, by linarith, rfl, rfl, by linarith⟩)
  · -- max == R, G < B: the raw hue is negative
    have eM : max r (max g b) = r := by omega
    have em : min r (min g b) = g := by omega
    have q1 : (g : ℚ) < b := by exact_mod_cast c3
    have q2 : (b : ℚ) ≤ r := by exact_mod_cast c2
    obtain ⟨f1, f2, f3⟩ := @quot_bounds ((g : ℚ) - b) ((r : ℚ) - g) (-1) 0 (by linarith)
      (by linarith) (by linarith)
    have f4 : ((g : ℚ) - b) / ((r : ℚ) - g) < 0 :=
      div_neg_of_neg_of_pos (by linarith) (by linarith)
    refine roundtrip_chromatic _ r g (60 * (((g : ℚ) - b) / ((r : ℚ) - g))) ?_ ?_ hg0
      (by linarith) hrq ?_ ?_
    · rw [maxVal3, eM]
    · rw [minVal3, em]
    · have hne : (r : ℚ) - g ≠ 0 := by linarith
      simp [rawHue, maxVal3, minVal3, eM, em, fdiv, hne]
    · generalize ((g : ℚ) - b) / ((r : ℚ) - g) = q at f1 f2 f3 f4 ⊢
      exact Or.inr ⟨by linarith, by linarith, rfl, rfl, by linarith⟩
  · -- max == G, B >= R
    have eM : max r (max g b) = g := by omega
    have em : min r (min g b) = r := by omega
    have q1 : (r : ℚ) < g := by exact_mod_cast c1
    have q2 : (b : ℚ) ≤ g := by exact_mod_cast c2
    have q3 : (r : ℚ) ≤ b := by exact_mod_cast c3
    obtain ⟨f1, f2, f3⟩ := @quot_bounds ((b : ℚ) - r) ((g : ℚ) - r) 0 1 (by linarith)
      (by linarith) (by linarith)
    refine roundtrip_chromatic _ g r (60 * (2 + ((b : ℚ) - r) / ((g : ℚ) - r))) ?_ ?_ hr0
      q1 hgq ?_ ?_
    · rw [maxVal3, eM]
    · rw [minVal3, em]
    · have hne : (g : ℚ) - r ≠ 0 := by linarith
      have hgr : ¬ g = r := by omega
      simp [rawHue, maxVal3, minVal3, eM, em, fdiv, hne, hgr]
    · generalize ((b : ℚ) - r) / ((g : ℚ) - r) = q at f1 f2 f3 ⊢
      exact Or.inl (Or.inr (Or.inr (Or.inl
        ⟨by linarith, by linarith, rfl, rfl, by linarith⟩)))
  · -- max == G, B < R
    have eM : max r (max g b) = g := by omega
    have em : min r (min g b) = b := by omega
    have q1 : (r : ℚ) < g := by exact_mod_cast c1
    have q2 : (b : ℚ) ≤ g := by exact_mod_cast c2
    have q3 : (b : ℚ) < r := by exact_mod_cast c3
    obtain ⟨f1, f2, f3⟩ := @quot_bounds ((b : ℚ) - r) ((g : ℚ) - b) (-1) 0 (by linarith)
      (by linarith) (by linarith)
    refine roundtrip_chromatic _ g b (60 * (2 + ((b : ℚ) - r) / ((g : ℚ) - b))) ?_ ?_ hb0
      (by linarith) hgq ?_ ?_
    · rw [maxVal3, eM]
    · rw [minVal3, em]
    · have hne : (g : ℚ) - b ≠ 0 := by linarith
      have hgr : ¬ g = r := by omega
      simp [rawHue, maxVal3, minVal3, eM, em, fdiv, hne, hgr]
    · generalize ((b : ℚ) - r) / ((g : ℚ) - b) = q at f1 f2 f3 ⊢
      exact Or.inl (Or.inr (Or.inl ⟨by linarith, by linarith, rfl, rfl, by linarith⟩))
  · -- max == B, R >= G
    have eM : max r (max g b) = b := by omega
    have em : min r (min g b) = g := by omega
    have q1 : (r : ℚ) < b := by exact_mod_cast c1
    have q2 : (g : ℚ) < b := by exact_mod_cast c2
    have q3 : (g : ℚ) ≤ r := by exact_mod_cast c3
    obtain ⟨f1, f2, f3⟩ := @quot_bounds ((r : ℚ) - g) ((b : ℚ) - g) 0 1 (by linarith)
      (by linarith) (by linarith)
    refine roundtrip_chromatic _ b g (60 * (4 + ((r : ℚ) - g) / ((b : ℚ) - g))) ?_ ?_ hg0
      q2 hbq ?_ ?_
    · rw [maxVal3, eM]
    · rw [minVal3, em]
    · have hne : (b : ℚ) - g ≠ 0 := by linarith
      have hbr : ¬ b = r := by omega
      have hbg : ¬ b = g := by omega
      simp [rawHue, maxVal3, minVal3, eM, em, fdiv, hne, hbr, hbg]
    · generalize ((r : ℚ) - g) / ((b : ℚ) - g) = q at f1 f2 f3 ⊢
      exact Or.inl (Or.inr (Or.inr (Or.inr (Or.inr
        ⟨by linarith, by linarith, rfl, rfl, by linarith⟩))))
  · -- max == B, R < G
    have eM : max r (max g b) = b := by omega
    have em : min r (min g b) = r := by omega
    have q1 : (r : ℚ) < b := by exact_mod_cast c1
    have q2 : (g : ℚ) < b := by exact_mod_cast c2
    have q3 : (r : ℚ) < g := by exact_mod_cast c3
    obtain ⟨f1, f2, f3⟩ := @quot_bounds ((r : ℚ) - g) ((b : ℚ) - r) (-1) 0 (by linarith)
      (by linarith) (by linarith)
    refine roundtrip_chromatic _ b r (60 * (4 + ((r : ℚ) - g) / ((b : ℚ) - r))) ?_ ?_ hr0
      q1 hbq ?_ ?_
    · rw [maxVal3, eM]
    · rw [minVal3, em]
    · have hne : (b : ℚ) - r ≠ 0 := by linarith
      have hbr : ¬ b = r := by omega
      have hbg : ¬ b = g := by omega
      simp [rawHue, maxVal3, minVal3, eM, em, fdiv, hne, hbr, hbg]
    · generalize ((r : ℚ) - g) / ((b : ℚ) - r) = q at f1 f2 f3 ⊢
      exact Or.inl (Or.inr (Or.inr (Or.inr (Or.inl
        ⟨by linarith, by linarith, rfl, rfl, by linarith⟩))))

/-- The round trip of (255,2,0) ends at (255,0,0). -/
theorem roundtrip_255_2_0 :
    MakeRGB (FromRGB 255 2 0) = { R := 255, G := 0, B := 0, H := 0, S := 1, V := 1, A := 255 } := by
  rw [FromRGB_255_2_0]
  norm_num [MakeRGB, round_zero, round_255, toUint8_zero, toUint8_255]

/-- The round trip keeps the largest and the smallest channel value. -/
theorem roundtrip_max_min (r g b : Nat) (hr : r < 256) (hg : g < 256) (hb : b < 256)
    (h0 : Int) (s0 v0 : ℚ) (a : Nat) :
    max (MakeRGB (MakeHSV { R := r, G := g, B := b, H := h0, S := s0, V := v0, A := a })).R
        (max (MakeRGB (MakeHSV { R := r, G := g, B := b, H := h0, S := s0, V := v0, A := a })).G
          (MakeRGB (MakeHSV { R := r, G := g, B := b, H := h0, S := s0, V := v0, A := a })).B)
      = max r (max g b)
    ∧ min (MakeRGB (MakeHSV { R := r, G := g, B := b, H := h0, S := s0, V := v0, A := a })).R
        (min (MakeRGB (MakeHSV { R := r, G := g, B := b, H := h0, S := s0, V := v0, A := a })).G
          (MakeRGB (MakeHSV { R := r, G := g, B := b, H := h0, S := s0, V := v0, A := a })).B)
      = min r (min g b) := by
  by_cases hgray : r = g ∧ g = b
  · obtain ⟨rfl, rfl⟩ := hgray
    rw [roundtrip_gray r hr]
    exact ⟨rfl, rfl⟩
  have hne : ¬ (({ R := r, G := g, B := b, H := h0, S := s0, V := v0, A := a } : Color).R
      = ({ R := r, G := g, B := b, H := h0, S := s0, V := v0, A := a } : Color).G
      ∧ ({ R := r, G := g, B := b, H := h0, S := s0, V := v0, A := a } : Color).G
      = ({ R := r, G := g, B := b, H := h0, S := s0, V := v0, A := a } : Color).B) := hgray
  obtain ⟨eV, eS⟩ := MakeHSV_V_S_of_chromatic _ hne
  obtain ⟨r0, r1, r2, r3, r4, r5⟩ := MakeHSV_range
    { R := r, G := g, B := b, H := h0, S := s0, V := v0, A := a } hr hg hb
  simp only at eV eS
  have hMm : min r (min g b) < max r (max g b) := by omega
  have hMq : ((min r (min g b) : Nat) : ℚ) < ((max r (max g b) : Nat) : ℚ) := by
    exact_mod_cast hMm
  have hM0 : (0 : ℚ) < ((max r (max g b) : Nat) : ℚ) :=
    lt_of_le_of_lt (Nat.cast_nonneg _) hMq
  have hSpos : 0 < (MakeHSV { R := r, G := g, B := b, H := h0, S := s0, V := v0, A := a }).S := by
    rw [eS]
    exact div_pos (by linarith) hM0
  obtain ⟨b1, b2, _⟩ := MakeRGB_bracket _ r0 r1 hSpos r3 r4 r5
  have e1 : ((max r (max g b) : Nat) : ℚ) / 255 * 255 = ((max r (max g b) : Nat) : ℚ) := by
    field_simp
  have e2 : ((max r (max g b) : Nat) : ℚ) / 255
      * (1 - (((max r (max g b) : Nat) : ℚ) - ((min r (min g b) : Nat) : ℚ))
          / ((max r (max g b) : Nat) : ℚ)) * 255 = ((min r (min g b) : Nat) : ℚ) :=
    level_min_eq (ne_of_gt hM0)
  rw [eV, e1, round_natCast] at b1
  rw [eV, eS, e2, round_natCast] at b2
  exact ⟨by exact_mod_cast b1, by exact_mod_cast b2⟩

/-- The round trip leaves in place every channel that is the largest or the
smallest of the three. -/
theorem roundtrip_positions (r g b : Nat) (hr : r < 256) (hg : g < 256) (hb : b < 256)
    (h0 : Int) (s0 v0 : ℚ) (a : Nat) :
    (r = max r (max g b) ∨ r = min r (min g b) →
      (MakeRGB (MakeHSV { R := r, G := g, B := b, H := h0, S := s0, V := v0, A := a })).R = r)
    ∧ (g = max r (max g b) ∨ g = min r (min g b) →
      (MakeRGB (MakeHSV { R := r, G := g, B := b, H := h0, S := s0, V := v0, A := a })).G = g)
    ∧ (b = max r (max g b) ∨ b = min r (min g b) →
      (MakeRGB (MakeHSV { R := r, G := g, B := b, H := h0, S := s0, V := v0, A := a })).B = b) := by
  by_cases hgray : r = g ∧ g = b
  · obtain ⟨rfl, rfl⟩ := hgray
    rw [roundtrip_gray r hr]
    exact ⟨fun _ => rfl, fun _ => rfl, fun _ => rfl⟩
  have hne : ¬ (({ R := r, G := g, B := b, H := h0, S := s0, V := v0, A := a } : Color).R
      = ({ R := r, G := g, B := b, H := h0, S := s0, V := v0, A := a } : Color).G
      ∧ ({ R := r, G := g, B := b, H := h0, S := s0, V := v0, A := a } : Color).G
      = ({ R := r, G := g, B := b, H := h0, S := s0, V := v0, A := a } : Color).B) := hgray
  obtain ⟨eV, eS⟩ := MakeHSV_V_S_of_chromatic _ hne
  obtain ⟨r0, r1, _⟩ := MakeHSV_range
    { R := r, G := g, B := b, H := h0, S := s0, V := v0, A := a } hr hg hb
  obtain ⟨p1, p2, p3, p4, p5, p6⟩ := MakeHSV_plateaus _ hne
  simp only at eV eS p1 p2 p3 p4 p5 p6
  obtain ⟨q1, q2, q3, q4, q5, q6⟩ := MakeRGB_plateaus _ (max r (max g b)) (min r (min g b))
    (by omega) (by omega) eV eS r0 r1
  refine ⟨?_, ?_, ?_⟩
  · rintro (h | h)
    · rw [q1 (p1 h)]; exact h.symm
    · rw [q4 (p4 h)]; exact h.symm
  · rintro (h | h)
    · rw [q2 (p2 h)]; exact h.symm
    · rw [q5 (p5 h)]; exact h.symm
  · rintro (h | h)
    · rw [q3 (p3 h)]; exact h.symm
    · rw [q6 (p6 h)]; exact h.symm

/-! ## Auxiliary facts: float64 rounding -/

theorem roundEven_intCast (k : Int) : roundEven (k : ℚ) = k := by
  unfold roundEven
  rw [Int.floor_intCast]
  simp

theorem floor_le_roundEven (q : ℚ) : ⌊q⌋ ≤ roundEven q := by
  unfold roundEven
  split_ifs <;> omega

theorem roundEven_le_floor_add_one (q : ℚ) : roundEven q ≤ ⌊q⌋ + 1 := by
  unfold roundEven
  split_ifs <;> omega

theorem abs_roundEven_sub_le (q : ℚ) : |(roundEven q : ℚ) - q| ≤ 1/2 := by
  have h1 := Int.floor_le q
  have h2 := Int.lt_floor_add_one q
  unfold roundEven
  rw [abs_le]
  split_ifs with a b c <;> push_cast <;> constructor <;> linarith

theorem le_roundEven {q : ℚ} {k : Int} (h : (k : ℚ) ≤ q) : k ≤ roundEven q :=
  le_trans (Int.le_floor.mpr h) (floor_le_roundEven q)

theorem roundEven_le {q : ℚ} {k : Int} (h : q ≤ (k : ℚ)) : roundEven q ≤ k := by
  rcases h.lt_or_eq with h1 | h1
  · have : ⌊q⌋ < k := Int.floor_lt.mpr h1
    have := roundEven_le_floor_add_one q
    omega
  · rw [h1, roundEven_intCast]

theorem roundEven_of_lt_half {q : ℚ} (f : Int) (h1 : (f : ℚ) ≤ q) (h2 : q < f + 1/2) :
    roundEven q = f := by
  have hf : ⌊q⌋ = f := by
    rw [Int.floor_eq_iff]; constructor <;> linarith
  unfold roundEven
  rw [hf, if_pos (by linarith)]

theorem roundEven_of_gt_half {q : ℚ} (f : Int) (h1 : (f : ℚ) + 1/2 < q) (h2 : q < f + 1) :
    roundEven q = f + 1 := by
  have hf : ⌊q⌋ = f := by
    rw [Int.floor_eq_iff]; constructor <;> linarith
  unfold roundEven
  rw [hf, if_neg (by linarith), if_pos (by linarith)]

theorem roundEven_of_tie {q : ℚ} (f : Int) (h : q = f + 1/2) :
    roundEven q = if f % 2 = 0 then f else f + 1 := by
  have hf : ⌊q⌋ = f := by
    rw [Int.floor_eq_iff]; constructor <;> linarith
  unfold roundEven
  rw [hf, if_neg (by linarith), if_neg (by linarith)]

theorem roundEven_neg (q : ℚ) : roundEven (-q) = -roundEven q := by
  have h1 := Int.floor_le q
  have h2 := Int.lt_floor_add_one q
  rcases h1.lt_or_eq with hlt | heq
  · rcases lt_trichotomy (q - (⌊q⌋ : Int)) (1/2) with c | c | c
    · rw [@roundEven_of_lt_half q ⌊q⌋ h1 (by linarith),
        @roundEven_of_gt_half (-q) (-⌊q⌋ - 1) (by push_cast; linarith) (by push_cast; linarith)]
      ring
    · rw [@roundEven_of_tie q ⌊q⌋ (by linarith),
        @roundEven_of_tie (-q) (-⌊q⌋ - 1) (by push_cast; linarith)]
      split_ifs <;> omega
    · rw [@roundEven_of_gt_half q ⌊q⌋ (by linarith) h2,
        @roundEven_of_lt_half (-q) (-⌊q⌋ - 1) (by push_cast; linarith) (by push_cast; linarith)]
      ring
  · have e : -q = ((-⌊q⌋ : Int) : ℚ) := by push_cast; linarith
    rw [e, roundEven_intCast]
    have e2 : q = ((⌊q⌋ : Int) : ℚ) := heq.symm
    conv_rhs => rw [e2, roundEven_intCast]
    
theorem expo64_neg (x : ℚ) : expo64 (-x) = expo64 x := by
  unfold expo64; rw [abs_neg]

theorem fl64_zero : fl64 0 = 0 := by
  unfold fl64; rw [if_pos rfl]

theorem fl64_neg (x : ℚ) : fl64 (-x) = -fl64 x := by
  unfold fl64
  by_cases hx : x = 0
  · simp [hx]
  · rw [if_neg hx, if_neg (neg_ne_zero.mpr hx), expo64_neg, neg_div, roundEven_neg]
    push_cast
    ring

theorem ulp_pos (e : Int) : (0 : ℚ) < 2 ^ e := zpow_pos (by norm_num) e

/-- The exponent of the binade, from bounds on the number. -/
theorem expo64_eq {x : ℚ} (e : Int) (h1 : (2 : ℚ) ^ e ≤ |x|) (h2 : |x| < 2 ^ (e + 1))
    (he : -1022 ≤ e) : expo64 x = e := by
  have hpos : 0 < |x| := lt_of_lt_of_le (ulp_pos e) h1
  have a1 : e ≤ Int.log 2 |x| :=
    (Int.zpow_le_iff_le_log (b := 2) (by norm_num) hpos).mp (by simpa using h1)
  have a2 : Int.log 2 |x| < e + 1 :=
    (Int.lt_zpow_iff_log_lt (b := 2) (by norm_num) hpos).mp (by simpa using h2)
  unfold expo64
  omega

/-- The exponent of the binade is at most `e` below `2^(e+1)`. -/
theorem expo64_le {x : ℚ} (e : Int) (hx : x ≠ 0) (h2 : |x| < 2 ^ (e + 1)) (he : -1022 ≤ e) :
    expo64 x ≤ e := by
  have hpos : 0 < |x| := abs_pos.mpr hx
  have a2 : Int.log 2 |x| < e + 1 :=
    (Int.lt_zpow_iff_log_lt (b := 2) (by norm_num) hpos).mp (by simpa using h2)
  unfold expo64
  omega

theorem fl64_of_expo {x : ℚ} (e : Int) (hx : x ≠ 0) (he : expo64 x = e) :
    fl64 x = (roundEven (x / 2 ^ (e - 52)) : ℚ) * 2 ^ (e - 52) := by
  unfold fl64
  rw [if_neg hx, he]

/-- The rounding error of `fl64` is at most half a unit in the last place. -/
theorem abs_fl64_sub_le (x : ℚ) : |fl64 x - x| ≤ 1/2 * 2 ^ (expo64 x - 52) := by
  by_cases hx : x = 0
  · rw [hx, fl64_zero]; simp
    exact (ulp_pos _).le
  · have hu := ulp_pos (expo64 x - 52)
    rw [fl64_of_expo _ hx rfl]
    have h := abs_roundEven_sub_le (x / 2 ^ (expo64 x - 52))
    have e : (roundEven (x / 2 ^ (expo64 x - 52)) : ℚ) * 2 ^ (expo64 x - 52) - x
        = ((roundEven (x / 2 ^ (expo64 x - 52)) : ℚ) - x / 2 ^ (expo64 x - 52))
          * 2 ^ (expo64 x - 52) := by
      field_simp
    rw [e, abs_mul, abs_of_pos hu]
    exact mul_le_mul_of_nonneg_right h hu.le

theorem fl64_nonneg {x : ℚ} (h : 0 ≤ x) : 0 ≤ fl64 x := by
  by_cases hx : x = 0
  · rw [hx, fl64_zero]
  · rw [fl64_of_expo _ hx rfl]
    have hu := ulp_pos (expo64 x - 52)
    have : (0 : Int) ≤ roundEven (x / 2 ^ (expo64 x - 52)) :=
      le_roundEven (by push_cast; exact div_nonneg h hu.le)
    have : (0 : ℚ) ≤ (roundEven (x / 2 ^ (expo64 x - 52)) : ℚ) := by exact_mod_cast this
    exact mul_nonneg this hu.le

theorem fl64_nonpos {x : ℚ} (h : x ≤ 0) : fl64 x ≤ 0 := by
  have := fl64_nonneg (neg_nonneg.mpr h)
  rw [fl64_neg] at this
  linarith


/-- The unit in the last place of a binade of exponent at most 52 is the
inverse of a power of two. -/
theorem ulp_eq_inv_pow {e : Int} (h : e ≤ 52) :
    (2 : ℚ) ^ (e - 52) = 1 / 2 ^ (52 - e).toNat := by
  have h1 : e - 52 = -(((52 - e).toNat : Nat) : Int) := by omega
  rw [h1, zpow_neg, zpow_natCast, one_div]

/-- A number that is an integer multiple of the unit in the last place of its
binade is a `float64`. -/
theorem fl64_of_int_quotient {x : ℚ} (k : Int) (h : x / 2 ^ (expo64 x - 52) = k) :
    fl64 x = x := by
  by_cases hx : x = 0
  · rw [hx, fl64_zero]
  · rw [fl64_of_expo _ hx rfl, h, roundEven_intCast, ← h]
    have := (ulp_pos (expo64 x - 52)).ne'
    field_simp

/-- An integer of magnitude below 2^53 is a `float64`. -/
theorem fl64_intCast (m : Int) (h : |m| < 2 ^ 53) : fl64 (m : ℚ) = m := by
  by_cases hm : (m : ℚ) = 0
  · rw [hm, fl64_zero]
  · have hq : |(m : ℚ)| < 2 ^ ((52 : Int) + 1) := by
      have : ((|m| : Int) : ℚ) < ((2 ^ 53 : Int) : ℚ) := by exact_mod_cast h
      rw [Int.cast_abs] at this
      norm_num at this ⊢
      exact this
    have he := expo64_le 52 hm hq (by norm_num)
    apply fl64_of_int_quotient (m * 2 ^ (52 - expo64 (m : ℚ)).toNat)
    rw [ulp_eq_inv_pow he]
    push_cast
    field_simp

/-- Rounding to `float64` does not pass a `float64` above. -/
theorem fl64_le_of_le {x c : ℚ} (K : Int) (hK : c / 2 ^ (expo64 x - 52) = K) (h : x ≤ c) :
    fl64 x ≤ c := by
  by_cases hx : x = 0
  · rw [hx, fl64_zero]; rw [hx] at h; exact h
  · have hu := ulp_pos (expo64 x - 52)
    rw [fl64_of_expo _ hx rfl]
    have h1 : x / 2 ^ (expo64 x - 52) ≤ (K : ℚ) := by
      rw [← hK]; exact div_le_div_of_nonneg_right h hu.le
    have h2 : roundEven (x / 2 ^ (expo64 x - 52)) ≤ K := roundEven_le h1
    have h3 : (roundEven (x / 2 ^ (expo64 x - 52)) : ℚ) ≤ (K : ℚ) := by exact_mod_cast h2
    have h4 : c = (K : ℚ) * 2 ^ (expo64 x - 52) := by
      rw [← hK]; field_simp
    rw [h4]
    exact mul_le_mul_of_nonneg_right h3 hu.le

/-- The `float64` sum that ends the loop of `regularize` is at most 360. -/
theorem fl64_le_360 {y : ℚ} (h : y ≤ 360) : fl64 y ≤ 360 := by
  rcases le_or_lt y 0 with h0 | h0
  · exact le_trans (fl64_nonpos h0) (by norm_num)
  · have hy : |y| < 2 ^ ((8 : Int) + 1) := by
      rw [abs_of_pos h0]; norm_num; linarith
    have he := expo64_le 8 h0.ne' hy (by norm_num)
    apply fl64_le_of_le (360 * 2 ^ (52 - expo64 y).toNat) _ h
    rw [ulp_eq_inv_pow (by omega)]
    push_cast
    field_simp

/-- The rounding error of the `float64` sum that ends the loop of `regularize`
is at most 2^-45. -/
theorem abs_fl64_sub_le_of_lt_512 {y : ℚ} (h : |y| < 512) : |fl64 y - y| ≤ 1 / 2 ^ 45 := by
  by_cases hy0 : y = 0
  · rw [hy0, fl64_zero]; norm_num
  · have hy : |y| < 2 ^ ((8 : Int) + 1) := by norm_num; exact h
    have he := expo64_le 8 hy0 hy (by norm_num)
    have h1 := abs_fl64_sub_le y
    have h2 : (2 : ℚ) ^ (expo64 y - 52) ≤ 2 ^ ((8 : Int) - 52) :=
      zpow_le_zpow_right₀ (by norm_num) (by omega)
    have h3 : (2 : ℚ) ^ ((8 : Int) - 52) = 1 / 2 ^ 44 := by norm_num
    rw [h3] at h2
    calc |fl64 y - y| ≤ 1/2 * 2 ^ (expo64 y - 52) := h1
      _ ≤ 1/2 * (1 / 2 ^ 44) := by linarith
      _ = 1 / 2 ^ 45 := by norm_num

/-- Evaluation of `fl64` on a positive number from the exponent of its binade. -/
theorem fl64_eval {x : ℚ} (e : Int) (hx : 0 < x) (h1 : (2 : ℚ) ^ e ≤ x) (h2 : x < 2 ^ (e + 1))
    (he : -1022 ≤ e) :
    fl64 x = (roundEven (x / 2 ^ (e - 52)) : ℚ) * 2 ^ (e - 52) :=
  fl64_of_expo e hx.ne' (expo64_eq e (by rwa [abs_of_pos hx]) (by rwa [abs_of_pos hx]) he)

/-- The sum 0.49999999999999994 + 0.5 is 1 in `float64`. -/
theorem fl64_below_one : fl64 (1/2 - 1/2^54 + 1/2) = 1 := by
  rw [fl64_eval (-1) (by norm_num) (by norm_num) (by norm_num) (by norm_num)]
  rw [@roundEven_of_tie _ (2 ^ 53 - 1) (by norm_num)]
  norm_num

/-- The sum (2^52 + 1) + 0.5 is 2^52 + 2 in `float64`. -/
theorem fl64_above_two_pow_52 : fl64 (2^52 + 1 + 1/2) = 2^52 + 2 := by
  rw [fl64_eval 52 (by norm_num) (by norm_num) (by norm_num) (by norm_num)]
  rw [@roundEven_of_tie _ (2 ^ 52 + 1) (by norm_num)]
  norm_num

/-- The sum -2^-60 + 360 is 360 in `float64`. -/
theorem fl64_below_360 : fl64 (-(1/2^60) + 360) = 360 := by
  rw [fl64_eval 8 (by norm_num) (by norm_num) (by norm_num) (by norm_num)]
  rw [@roundEven_of_gt_half _ (360 * 2 ^ 44 - 1) (by norm_num) (by norm_num)]
  norm_num

/-- The sum -10^19 + 360 is -10^19 in `float64`. -/
theorem fl64_neg_1e19 : fl64 (-10^19 + 360) = -10^19 := by
  have e : (-10^19 + 360 : ℚ) = -(10^19 - 360) := by ring
  rw [e, fl64_neg, fl64_eval 63 (by norm_num) (by norm_num) (by norm_num) (by norm_num)]
  rw [@roundEven_of_gt_half _ 4882812499999999 (by norm_num) (by norm_num)]
  norm_num


/-! ## Auxiliary facts: round and regularize in float64 -/

theorem round64_of_nonneg {n : ℚ} (h : 0 ≤ n) : round64 n = ⌊fl64 (n + 1/2)⌋ := by
  unfold round64; rw [if_neg (not_lt.mpr h)]

theorem round64_of_neg {n : ℚ} (h : n < 0) : round64 n = ⌈fl64 (n - 1/2)⌉ := by
  unfold round64; rw [if_pos h]

theorem round64_zero : round64 0 = 0 := by
  rw [round64_of_nonneg le_rfl, Int.floor_eq_iff]
  have h := abs_le.mp (@abs_fl64_sub_le_of_lt_512 (0 + 1/2)
    (by rw [abs_of_pos] <;> norm_num))
  have e : (1 : ℚ) / 2 ^ 45 ≤ 1/4 := by norm_num
  constructor <;> push_cast <;> linarith [h.1, h.2]

theorem round64_neg (n : ℚ) : round64 (-n) = -round64 n := by
  rcases lt_trichotomy n 0 with h | h | h
  · rw [round64_of_nonneg (by linarith : (0 : ℚ) ≤ -n), round64_of_neg h]
    have e : -n + 1/2 = -(n - 1/2) := by ring
    rw [e, fl64_neg, Int.floor_neg]
  · subst h
    rw [neg_zero, round64_zero]; rfl
  · rw [round64_of_neg (by linarith : -n < 0), round64_of_nonneg h.le]
    have e : -n - 1/2 = -(n + 1/2) := by ring
    rw [e, fl64_neg, Int.ceil_neg]

/-- The distance from `round64 n` to `n` is at most 1/2 plus the rounding error
of the sum. -/
theorem abs_round64_sub_le_of_nonneg {n : ℚ} (h : 0 ≤ n) :
    |(round64 n : ℚ) - n| ≤ 1/2 + |fl64 (n + 1/2) - (n + 1/2)| := by
  rw [round64_of_nonneg h]
  have h1 := Int.floor_le (fl64 (n + 1/2))
  have h2 := Int.lt_floor_add_one (fl64 (n + 1/2))
  have h3 := abs_le.mp (le_refl |fl64 (n + 1/2) - (n + 1/2)|)
  rw [abs_le]
  constructor <;> linarith [h3.1, h3.2]

theorem abs_round64_sub_le_of_neg {n : ℚ} (h : n < 0) :
    |(round64 n : ℚ) - n| ≤ 1/2 + |fl64 (n - 1/2) - (n - 1/2)| := by
  rw [round64_of_neg h]
  have h1 := Int.le_ceil (fl64 (n - 1/2))
  have h2 := Int.ceil_lt_add_one (fl64 (n - 1/2))
  have h3 := abs_le.mp (le_refl |fl64 (n - 1/2) - (n - 1/2)|)
  rw [abs_le]
  constructor <;> linarith [h3.1, h3.2]

/-- When the sum is exact, `round64` is `round`. -/
theorem round64_eq_round_of_exact (n : ℚ) (h1 : 0 ≤ n → fl64 (n + 1/2) = n + 1/2)
    (h2 : n < 0 → fl64 (n - 1/2) = n - 1/2) : round64 n = round n := by
  unfold round64 round
  split_ifs with h
  · rw [h2 h]
  · rw [h1 (not_lt.mp h)]

/-- Ties of `round64`: at `k + 1/2` with `|k| < 2^52` both sums are exact. -/
theorem round64_tie (k : Int) (hk : |k| < 2 ^ 52) :
    round64 ((k : ℚ) + 1/2) = if 0 ≤ k then k + 1 else k := by
  have hk2 := abs_lt.mp hk
  split_ifs with h
  · have hq : (0 : ℚ) ≤ (k : ℚ) := by exact_mod_cast h
    rw [round64_of_nonneg (by linarith)]
    have e : (k : ℚ) + 1/2 + 1/2 = ((k + 1 : Int) : ℚ) := by push_cast; ring
    rw [e, fl64_intCast (k + 1) (by rw [abs_lt]; constructor <;> omega), Int.floor_intCast]
  · have hq : (k : ℚ) ≤ -1 := by
      have : k ≤ -1 := by omega
      exact_mod_cast this
    rw [round64_of_neg (by linarith)]
    have e : (k : ℚ) + 1/2 - 1/2 = ((k : Int) : ℚ) := by ring
    rw [e, fl64_intCast k (by rw [abs_lt]; constructor <;> omega), Int.ceil_intCast]

theorem round64_below_half : round64 (1/2 - 1/2^54) = 1 := by
  rw [round64_of_nonneg (by norm_num), fl64_below_one]
  norm_num

theorem round64_above_two_pow_52 : round64 (2^52 + 1) = 2^52 + 2 := by
  rw [round64_of_nonneg (by norm_num), fl64_above_two_pow_52]
  have e : (2 ^ 52 + 2 : ℚ) = ((2 ^ 52 + 2 : Int) : ℚ) := by norm_num
  rw [e, Int.floor_intCast]

theorem regularizeIter64_of_nonneg (fuel : Nat) {h : ℚ} (h0 : 0 ≤ h) :
    regularizeIter64 (fuel + 1) h = some h := by
  unfold regularizeIter64; rw [if_pos h0]

theorem regularizeIter64_of_neg (fuel : Nat) {h : ℚ} (h0 : h < 0) :
    regularizeIter64 (fuel + 1) h = regularizeIter64 fuel (fl64 (h + 360)) := by
  conv_lhs => unfold regularizeIter64
  rw [if_neg (not_le.mpr h0)]

/-- One addition ends the loop from a hue in [-360, 0). -/
theorem regularizeIter64_one_turn (fuel : Nat) {h : ℚ} (h1 : -360 ≤ h) (h0 : h < 0) :
    regularizeIter64 (fuel + 2) h = some (fl64 (h + 360)) := by
  rw [regularizeIter64_of_neg (fuel + 1) h0,
    regularizeIter64_of_nonneg fuel (fl64_nonneg (by linarith))]

/-- Whenever the loop ends on a negative hue, the result is in [0,360]. -/
theorem regularizeIter64_mem (fuel : Nat) (h r : ℚ) (h0 : h < 0)
    (hr : regularizeIter64 fuel h = some r) : 0 ≤ r ∧ r ≤ 360 := by
  induction fuel generalizing h with
  | zero => simp [regularizeIter64] at hr
  | succ n ih =>
    rw [regularizeIter64_of_neg n h0] at hr
    by_cases hn : 0 ≤ fl64 (h + 360)
    · cases n with
      | zero => simp [regularizeIter64] at hr
      | succ m =>
        rw [regularizeIter64_of_nonneg m hn] at hr
        cases hr
        exact ⟨hn, fl64_le_360 (by linarith)⟩
    · exact ih (fl64 (h + 360)) (not_le.mp hn) hr

/-- From -10^19 the loop does not end: the sum is -10^19 again. -/
theorem regularizeIter64_stuck (fuel : Nat) : regularizeIter64 fuel (-10^19) = none := by
  induction fuel with
  | zero => rfl
  | succ n ih => rw [regularizeIter64_of_neg n (by norm_num), fl64_neg_1e19, ih]

theorem floor_div_360_of_neg {h : ℚ} (h1 : -360 ≤ h) (h0 : h < 0) : ⌊h / 360⌋ = -1 := by
  rw [Int.floor_eq_iff]
  constructor
  · rw [le_div_iff₀ (by norm_num)]; push_cast; linarith
  · rw [div_lt_iff₀ (by norm_num)]; push_cast; linarith

/-! ## The round trip RGB -> HSV -> RGB -/

/-- C1 (refuted as stated): the round trip of (255,2,0) does not stay within 1
per channel: it returns G = 0. -/
theorem roundtrip_not_within_one :
    ¬ (chanDist (MakeRGB (FromRGB 255 2 0)).R 255 ≤ 1
      ∧ chanDist (MakeRGB (FromRGB 255 2 0)).G 2 ≤ 1
      ∧ chanDist (MakeRGB (FromRGB 255 2 0)).B 0 ≤ 1) := by
  rw [roundtrip_255_2_0]
  decide

/-- C1 (amended): for all 8-bit r, g, b, the colour `FromRGB(r,g,b)` followed
by `MakeRGB` has R, G, B within 2 of r, g, b. -/
theorem roundtrip_within_two (r g b : Nat) (hr : r < 256) (hg : g < 256) (hb : b < 256) :
    chanDist (MakeRGB (FromRGB r g b)).R r ≤ 2
    ∧ chanDist (MakeRGB (FromRGB r g b)).G g ≤ 2
    ∧ chanDist (MakeRGB (FromRGB r g b)).B b ≤ 2 :=
  roundtrip_MakeHSV_MakeRGB r g b hr hg hb 0 0 0 255

/-- Witness for C1 (amended) at (200,100,50). -/
theorem roundtrip_within_two_witness :
    chanDist (MakeRGB (FromRGB 200 100 50)).R 200 ≤ 2
    ∧ chanDist (MakeRGB (FromRGB 200 100 50)).G 100 ≤ 2
    ∧ chanDist (MakeRGB (FromRGB 200 100 50)).B 50 ≤ 2 :=
  roundtrip_within_two 200 100 50 (by decide) (by decide) (by decide)

/-! ## Formatting -/

/-- C2: `String()` is not always `#` followed by six hexadecimal digits: a
colour with R = 255, G = 0, B = 128 (whatever its other fields) is formatted as
`#FF080`, six characters long, not as `#FF0080`. -/
theorem String_unpadded_FF080 (h : Int) (s v : ℚ) (a : Nat) :
    Color.String { R := 255, G := 0, B := 128, H := h, S := s, V := v, A := a } = "#FF080"
    ∧ Color.String { R := 255, G := 0, B := 128, H := h, S := s, V := v, A := a } ≠ "#FF0080"
    ∧ (Color.String { R := 255, G := 0, B := 128, H := h, S := s, V := v, A := a }).length = 6 := by
  have e : Color.String { R := 255, G := 0, B := 128, H := h, S := s, V := v, A := a }
      = "#FF080" := by
    simp only [Color.String]
    decide
  rw [e]
  decide

/-! ## Hue normalization -/

/-- C3 (refuted as stated): `FromAHSV(255, -30, 1, 1)` and
`FromAHSV(255, 330, 1, 1)` do not have the same R, G and B. -/
theorem FromAHSV_neg30_ne_330 :
    ¬ ((FromAHSV 255 (-30) 1 1).R = (FromAHSV 255 330 1 1).R
      ∧ (FromAHSV 255 (-30) 1 1).G = (FromAHSV 255 330 1 1).G
      ∧ (FromAHSV 255 (-30) 1 1).B = (FromAHSV 255 330 1 1).B) := by
  rw [FromAHSV_neg30, FromAHSV_330]
  decide

/-- C3 (amended): the hue is not normalized on the way from HSV to RGB.
`FromAHSV(255, 330, 1, 1)` has (R, G, B) = (255, 0, 128), while
`FromAHSV(255, -30, 1, 1)`, whose sector index is -1, keeps the initial
R = G = B = 0, and keeps H = -30. -/
theorem FromAHSV_neg30_stale :
    ((FromAHSV 255 330 1 1).R = 255 ∧ (FromAHSV 255 330 1 1).G = 0
      ∧ (FromAHSV 255 330 1 1).B = 128)
    ∧ ((FromAHSV 255 (-30) 1 1).R = 0 ∧ (FromAHSV 255 (-30) 1 1).G = 0
      ∧ (FromAHSV 255 (-30) 1 1).B = 0 ∧ (FromAHSV 255 (-30) 1 1).H = -30) := by
  rw [FromAHSV_neg30, FromAHSV_330]
  decide

/-! ## Range of the HSV triple -/

/-- C4: range invariant. For all 8-bit r, g, b and every a, the colour
`FromARGB(a,r,g,b)` has 0 ≤ H ≤ 359, 0 ≤ S ≤ 1 and 0 ≤ V ≤ 1; the same holds
of `MakeHSV` on any colour with these channels, whatever H, S, V it held. -/
theorem FromARGB_hsv_range (a r g b : Nat) (hr : r < 256) (hg : g < 256) (hb : b < 256)
    (h : Int) (s v : ℚ) :
    (0 ≤ (FromARGB a r g b).H ∧ (FromARGB a r g b).H ≤ 359
      ∧ 0 ≤ (FromARGB a r g b).S ∧ (FromARGB a r g b).S ≤ 1
      ∧ 0 ≤ (FromARGB a r g b).V ∧ (FromARGB a r g b).V ≤ 1)
    ∧ (0 ≤ (MakeHSV { R := r, G := g, B := b, H := h, S := s, V := v, A := a }).H
      ∧ (MakeHSV { R := r, G := g, B := b, H := h, S := s, V := v, A := a }).H ≤ 359
      ∧ 0 ≤ (MakeHSV { R := r, G := g, B := b, H := h, S := s, V := v, A := a }).S
      ∧ (MakeHSV { R := r, G := g, B := b, H := h, S := s, V := v, A := a }).S ≤ 1
      ∧ 0 ≤ (MakeHSV { R := r, G := g, B := b, H := h, S := s, V := v, A := a }).V
      ∧ (MakeHSV { R := r, G := g, B := b, H := h, S := s, V := v, A := a }).V ≤ 1) :=
  ⟨MakeHSV_range _ hr hg hb, MakeHSV_range _ hr hg hb⟩

/-- Witness for C4 at `FromARGB(128,10,20,30)`. -/
theorem FromARGB_hsv_range_witness :
    0 ≤ (FromARGB 128 10 20 30).H ∧ (FromARGB 128 10 20 30).H ≤ 359
      ∧ 0 ≤ (FromARGB 128 10 20 30).S ∧ (FromARGB 128 10 20 30).S ≤ 1
      ∧ 0 ≤ (FromARGB 128 10 20 30).V ∧ (FromARGB 128 10 20 30).V ≤ 1 :=
  (FromARGB_hsv_range 128 10 20 30 (by decide) (by decide) (by decide) 0 0 0).1

/-! ## Grays -/

/-- C5: achromatic input. For every k, `FromRGB(k,k,k)` has S = 0, H = 0 and
V = k/255; black has V = 0 and white has V = 1. For k > 0 the early return for
black is not taken, the raw hue is not-a-number (0/0), and `regularize` turns
it into 0. -/
theorem FromRGB_gray (k : Nat) :
    ((FromRGB k k k).S = 0 ∧ (FromRGB k k k).H = 0 ∧ (FromRGB k k k).V = (k : ℚ) / 255)
    ∧ ((FromRGB 0 0 0).V = 0 ∧ (FromRGB 255 255 255).V = 1)
    ∧ (0 < k →
        maxVal [k, k, k] / 255 ≠ 0
        ∧ fdiv ((k : ℚ) - k) (maxVal [k, k, k] - minVal [k, k, k] (by simp)) = none
        ∧ rawHue { R := k, G := k, B := k, H := 0, S := 0, V := 0, A := 255 } = none
        ∧ regularize none = 0) := by
  have e : ∀ n : Nat, FromRGB n n n
      = { R := n, G := n, B := n, H := 0, S := 0, V := (n : ℚ) / 255, A := 255 } := by
    intro n
    unfold FromRGB FromARGB
    exact MakeHSV_gray n 0 0 0 255
  refine ⟨?_, ?_, ?_⟩
  · rw [e]; exact ⟨rfl, rfl, rfl⟩
  · rw [e, e]; norm_num
  · intro hk
    have hq : (0 : ℚ) < k := by exact_mod_cast hk
    refine ⟨?_, ?_, rawHue_gray k 0 0 0 255, rfl⟩
    · simp only [maxVal3]
      simp
      omega
    · simp [fdiv, maxVal3, minVal3]

/-- Witness for C5 at the gray k = 7, where the raw hue is not-a-number. -/
theorem FromRGB_gray_witness :
    (FromRGB 7 7 7).H = 0
    ∧ rawHue { R := 7, G := 7, B := 7, H := 0, S := 0, V := 0, A := 255 } = none :=
  ⟨(FromRGB_gray 7).1.2.1, ((FromRGB_gray 7).2.2 (by decide)).2.2.1⟩

/-! ## Primary colours and sector boundaries -/

/-- C6: the primary colours. `FromRGB(255,0,0)` has H = 0, S = 1, V = 1;
`FromRGB(0,255,0)` has H = 120, S = 1, V = 1; `FromRGB(0,0,255)` has H = 240,
S = 1, V = 1. -/
theorem FromRGB_primaries :
    ((FromRGB 255 0 0).H = 0 ∧ (FromRGB 255 0 0).S = 1 ∧ (FromRGB 255 0 0).V = 1)
    ∧ ((FromRGB 0 255 0).H = 120 ∧ (FromRGB 0 255 0).S = 1 ∧ (FromRGB 0 255 0).V = 1)
    ∧ ((FromRGB 0 0 255).H = 240 ∧ (FromRGB 0 0 255).S = 1 ∧ (FromRGB 0 0 255).V = 1) := by
  refine ⟨?_, ?_, ?_⟩
  · norm_num [FromRGB, FromARGB, MakeHSV, rawHue, maxVal3, minVal3, fdiv, regularize,
      regularizeLoop_zero, round_zero]
  · norm_num [FromRGB, FromARGB, MakeHSV, rawHue, maxVal3, minVal3, fdiv, regularize,
      regularizeLoop_120, round_120]
    rfl
  · norm_num [FromRGB, FromARGB, MakeHSV, rawHue, maxVal3, minVal3, fdiv, regularize,
      regularizeLoop_240, round_240]
    rfl

/-- C7: sector boundaries. With S = 1 and V = 1, `FromHSV` gives (255,0,0) at
H = 0, (255,255,0) at H = 60, (0,255,0) at H = 120, (0,255,255) at H = 180,
(0,0,255) at H = 240 and (255,0,255) at H = 300. -/
theorem FromHSV_sector_boundaries :
    ((FromHSV 0 1 1).R = 255 ∧ (FromHSV 0 1 1).G = 0 ∧ (FromHSV 0 1 1).B = 0)
    ∧ ((FromHSV 60 1 1).R = 255 ∧ (FromHSV 60 1 1).G = 255 ∧ (FromHSV 60 1 1).B = 0)
    ∧ ((FromHSV 120 1 1).R = 0 ∧ (FromHSV 120 1 1).G = 255 ∧ (FromHSV 120 1 1).B = 0)
    ∧ ((FromHSV 180 1 1).R = 0 ∧ (FromHSV 180 1 1).G = 255 ∧ (FromHSV 180 1 1).B = 255)
    ∧ ((FromHSV 240 1 1).R = 0 ∧ (FromHSV 240 1 1).G = 0 ∧ (FromHSV 240 1 1).B = 255)
    ∧ ((FromHSV 300 1 1).R = 255 ∧ (FromHSV 300 1 1).G = 0 ∧ (FromHSV 300 1 1).B = 255) := by
  have h0 := FromHSV_boundary 0
  have h1 := FromHSV_boundary 1
  have h2 := FromHSV_boundary 2
  have h3 := FromHSV_boundary 3
  have h4 := FromHSV_boundary 4
  have h5 := FromHSV_boundary 5
  norm_num at h0 h1 h2 h3 h4 h5
  simp only [FromHSV, FromAHSV, h0, h1, h2, h3, h4, h5]
  decide

/-! ## Alpha -/

/-- C8: alpha pass-through. `FromARGB` and `FromAHSV` store the alpha they are
given, `FromRGB` and `FromHSV` store 255, neither `MakeHSV` nor `MakeRGB`
changes A, and so A is unchanged by any sequence of conversions; in particular
`FromARGB(128,10,20,30)` has A = 128 after any sequence of conversions. -/
theorem alpha_passthrough :
    (∀ a r g b : Nat, (FromARGB a r g b).A = a)
    ∧ (∀ (a : Nat) (h : Int) (s v : ℚ), (FromAHSV a h s v).A = a)
    ∧ (∀ r g b : Nat, (FromRGB r g b).A = 255)
    ∧ (∀ (h : Int) (s v : ℚ), (FromHSV h s v).A = 255)
    ∧ (∀ c : Color, (MakeHSV c).A = c.A)
    ∧ (∀ c : Color, (MakeRGB c).A = c.A)
    ∧ (∀ (cs : List Conv) (c : Color), (applyConvs cs c).A = c.A)
    ∧ (∀ cs : List Conv, (applyConvs cs (FromARGB 128 10 20 30)).A = 128) := by
  refine ⟨?_, ?_, ?_, ?_, MakeHSV_A, MakeRGB_A, applyConvs_A, ?_⟩
  · intro a r g b; unfold FromARGB; rw [MakeHSV_A]
  · intro a h s v; unfold FromAHSV; rw [MakeRGB_A]
  · intro r g b; unfold FromRGB FromARGB; rw [MakeHSV_A]
  · intro h s v; unfold FromHSV FromAHSV; rw [MakeRGB_A]
  · intro cs; rw [applyConvs_A]; unfold FromARGB; rw [MakeHSV_A]

/-! ## Hue outside the six sectors -/

/-- C9: stale pass-through. For a colour with S ≠ 0 and a hue below 0 or at
least 360, `MakeRGB` leaves R, G and B as they were; hence `FromAHSV` with such
a hue and saturation returns R = G = B = 0. -/
theorem MakeRGB_stale_passthrough (c : Color) (hS : c.S ≠ 0) (hH : c.H < 0 ∨ 360 ≤ c.H) :
    ((MakeRGB c).R = c.R ∧ (MakeRGB c).G = c.G ∧ (MakeRGB c).B = c.B)
    ∧ ((FromAHSV c.A c.H c.S c.V).R = 0 ∧ (FromAHSV c.A c.H c.S c.V).G = 0
      ∧ (FromAHSV c.A c.H c.S c.V).B = 0) := by
  constructor
  · rw [MakeRGB_out_of_sector c hS hH]
    exact ⟨rfl, rfl, rfl⟩
  · unfold FromAHSV
    rw [MakeRGB_out_of_sector { A := c.A, H := c.H, S := c.S, V := c.V, R := 0, G := 0, B := 0 }
      hS hH]
    exact ⟨rfl, rfl, rfl⟩

/-- Witness for C9 at the colour R = 9, G = 8, B = 7, H = 400, S = 1/2, V = 1. -/
theorem MakeRGB_stale_passthrough_witness :
    ((MakeRGB { R := 9, G := 8, B := 7, H := 400, S := 1/2, V := 1, A := 255 }).R = 9
      ∧ (MakeRGB { R := 9, G := 8, B := 7, H := 400, S := 1/2, V := 1, A := 255 }).G = 8
      ∧ (MakeRGB { R := 9, G := 8, B := 7, H := 400, S := 1/2, V := 1, A := 255 }).B = 7)
    ∧ ((FromAHSV 255 400 (1/2) 1).R = 0 ∧ (FromAHSV 255 400 (1/2) 1).G = 0
      ∧ (FromAHSV 255 400 (1/2) 1).B = 0) :=
  MakeRGB_stale_passthrough { R := 9, G := 8, B := 7, H := 400, S := 1/2, V := 1, A := 255 }
    (by norm_num) (by norm_num)

/-! ## The achromatic branch of HSV to RGB -/

/-- C10: achromatic short-circuit. For a colour with S = 0, whatever its hue,
`MakeRGB` sets R = G = B = round(V * 255) modulo 256; for V in [0,1] this is
round(V * 255) itself; and S = 0, V = 2 gives R = G = B = 510 mod 256 = 254. -/
theorem MakeRGB_achromatic (c : Color) (hS : c.S = 0) :
    (((MakeRGB c).R : Int) = round (c.V * 255) % 256
      ∧ (MakeRGB c).G = (MakeRGB c).R ∧ (MakeRGB c).B = (MakeRGB c).R)
    ∧ (0 ≤ c.V → c.V ≤ 1 → ((MakeRGB c).R : Int) = round (c.V * 255))
    ∧ (c.V = 2 → (MakeRGB c).R = 254 ∧ (MakeRGB c).G = 254 ∧ (MakeRGB c).B = 254) := by
  rw [MakeRGB_of_S_zero c hS]
  refine ⟨⟨?_, rfl, rfl⟩, ?_, ?_⟩
  · simp only [toUint8]
    exact Int.toNat_of_nonneg (Int.emod_nonneg _ (by decide))
  · intro h0 h1
    simp only
    have hlo : 0 ≤ round (c.V * 255) := round_nonneg (by positivity)
    have hhi : round (c.V * 255) < 256 := by
      have := abs_le.mp (abs_round_sub_le (c.V * 255))
      have h2 : ((round (c.V * 255) : Int) : ℚ) < 256 := by linarith [this.2]
      exact_mod_cast h2
    exact toUint8_of_lt hlo hhi
  · intro hV
    simp only [hV]
    norm_num [round_510]
    decide

/-- Witness for C10 at S = 0, V = 2, with a hue outside [0,360). -/
theorem MakeRGB_achromatic_witness :
    (MakeRGB { R := 1, G := 2, B := 3, H := 400, S := 0, V := 2, A := 255 }).R = 254
    ∧ (MakeRGB { R := 1, G := 2, B := 3, H := 400, S := 0, V := 2, A := 255 }).G = 254
    ∧ (MakeRGB { R := 1, G := 2, B := 3, H := 400, S := 0, V := 2, A := 255 }).B = 254 :=
  (MakeRGB_achromatic { R := 1, G := 2, B := 3, H := 400, S := 0, V := 2, A := 255 } rfl).2.2 rfl

/-! ## Value and saturation -/

/-- C11: value and saturation. With max and min the largest and smallest of
R, G, B, `MakeHSV` sets V = max/255; if max = 0 it sets S = 0 and H = 0,
otherwise S = (max - min)/max. V = 0 exactly when R = G = B = 0, and S = 0
exactly when R = G = B. -/
theorem MakeHSV_value_saturation (c : Color) :
    (maxVal [c.R, c.G, c.B] = ((max c.R (max c.G c.B) : Nat) : ℚ)
      ∧ minVal [c.R, c.G, c.B] (by simp) = ((min c.R (min c.G c.B) : Nat) : ℚ))
    ∧ (MakeHSV c).V = ((max c.R (max c.G c.B) : Nat) : ℚ) / 255
    ∧ (max c.R (max c.G c.B) = 0 → (MakeHSV c).S = 0 ∧ (MakeHSV c).H = 0)
    ∧ (max c.R (max c.G c.B) ≠ 0 →
        (MakeHSV c).S = (((max c.R (max c.G c.B) : Nat) : ℚ) - ((min c.R (min c.G c.B) : Nat) : ℚ))
          / ((max c.R (max c.G c.B) : Nat) : ℚ))
    ∧ ((MakeHSV c).V = 0 ↔ c.R = 0 ∧ c.G = 0 ∧ c.B = 0)
    ∧ ((MakeHSV c).S = 0 ↔ c.R = c.G ∧ c.G = c.B) := by
  refine ⟨⟨maxVal3 _ _ _, minVal3 _ _ _ _⟩, ?_⟩
  by_cases h0 : max c.R (max c.G c.B) = 0
  · have hq : maxVal [c.R, c.G, c.B] = 0 := by rw [maxVal3, h0]; simp
    rw [MakeHSV_of_max_eq_zero c hq]
    refine ⟨by simp [h0], fun _ => by simp, fun h => absurd h0 h, ?_, ?_⟩
    · simp only [true_iff]; omega
    · simp only [true_iff]; omega
  · have hq : maxVal [c.R, c.G, c.B] ≠ 0 := by
      rw [maxVal3]; exact_mod_cast h0
    rw [MakeHSV_of_max_ne_zero c hq]
    simp only [maxVal3, minVal3] at hq ⊢
    refine ⟨trivial, fun h => absurd h h0, fun _ => trivial, ?_, ?_⟩
    · constructor
      · intro h
        rw [div_eq_zero_iff] at h
        rcases h with h | h
        · exact absurd h hq
        · norm_num at h
      · intro h; exfalso; omega
    · rw [div_eq_zero_iff, sub_eq_zero]
      constructor
      · intro h
        rcases h with h | h
        · have h1 : max c.R (max c.G c.B) = min c.R (min c.G c.B) := by exact_mod_cast h
          omega
        · exact absurd h hq
      · intro h
        left
        have h1 : max c.R (max c.G c.B) = min c.R (min c.G c.B) := by omega
        rw [h1]

/-- Witness for C11 at (200,100,50): max = 200 is not 0, and S = 150/200. -/
theorem MakeHSV_value_saturation_witness :
    (MakeHSV { R := 200, G := 100, B := 50, H := 0, S := 0, V := 0, A := 255 }).S
      = (((max 200 (max 100 50) : Nat) : ℚ) - ((min 200 (min 100 50) : Nat) : ℚ))
          / ((max 200 (max 100 50) : Nat) : ℚ) :=
  (MakeHSV_value_saturation
    { R := 200, G := 100, B := 50, H := 0, S := 0, V := 0, A := 255 }).2.2.2.1 (by decide)

/-! ## The unpadded hexadecimal form -/

/-- C12: unpadded hex. On 8-bit channels `String()` is `#` followed by the
hexadecimal digits of R, of G and of B, upper case and without padding: one
digit for a channel below 16, two for a channel from 16 on. Its length is 1
plus the numbers of digits, between 4 and 7; R = 255, G = 0, B = 128 gives
`#FF080`. -/
theorem String_unpadded (c : Color) (hR : c.R < 256) (hG : c.G < 256) (hB : c.B < 256) :
    (Color.String c).data = '#' :: (hexDigits c.R ++ hexDigits c.G ++ hexDigits c.B)
    ∧ ((fmtX c.R).data = hexDigits c.R ∧ (fmtX c.G).data = hexDigits c.G
      ∧ (fmtX c.B).data = hexDigits c.B)
    ∧ ((hexDigits c.R).length = (if c.R < 16 then 1 else 2)
      ∧ (hexDigits c.G).length = (if c.G < 16 then 1 else 2)
      ∧ (hexDigits c.B).length = (if c.B < 16 then 1 else 2))
    ∧ (∀ ch ∈ hexDigits c.R ++ hexDigits c.G ++ hexDigits c.B, ch ∈ "0123456789ABCDEF".toList)
    ∧ (Color.String c).length
        = 1 + (hexDigits c.R).length + (hexDigits c.G).length + (hexDigits c.B).length
    ∧ 4 ≤ (Color.String c).length ∧ (Color.String c).length ≤ 7
    ∧ Color.String { c with R := 255, G := 0, B := 128 } = "#FF080" := by
  have hd := String_data c hR hG hB
  have hl : (Color.String c).length
      = 1 + (hexDigits c.R).length + (hexDigits c.G).length + (hexDigits c.B).length := by
    show (Color.String c).data.length = _
    rw [hd]
    simp only [List.length_cons, List.length_append]
    omega
  have lR := hexDigits_length c.R
  have lG := hexDigits_length c.G
  have lB := hexDigits_length c.B
  refine ⟨hd, ⟨fmtX_data hR, fmtX_data hG, fmtX_data hB⟩, ⟨lR, lG, lB⟩, ?_, hl, ?_, ?_, ?_⟩
  · intro ch hch
    rw [List.mem_append, List.mem_append] at hch
    rcases hch with (h | h) | h
    · exact hexDigits_upper_fin ⟨c.R, hR⟩ ch h
    · exact hexDigits_upper_fin ⟨c.G, hG⟩ ch h
    · exact hexDigits_upper_fin ⟨c.B, hB⟩ ch h
  · rw [hl, lR, lG, lB]; split_ifs <;> omega
  · rw [hl, lR, lG, lB]; split_ifs <;> omega
  · simp only [Color.String]
    decide

/-- Witness for C12 at R = 10, G = 200, B = 0: `#AC80`, of length 5. -/
theorem String_unpadded_witness :
    (Color.String { R := 10, G := 200, B := 0, H := 0, S := 0, V := 0, A := 255 }).data
      = '#' :: (hexDigits 10 ++ hexDigits 200 ++ hexDigits 0) :=
  (String_unpadded { R := 10, G := 200, B := 0, H := 0, S := 0, V := 0, A := 255 }
    (by decide) (by decide) (by decide)).1

/-! ## Frame of the conversions -/

/-- C13: a conversion touches only the opposite representation. `MakeHSV`
leaves R, G, B and A, `MakeRGB` leaves H, S, V and A; so `FromARGB(a,r,g,b)` has
R, G, B equal to r, g, b and `FromAHSV(a,h,s,v)` has H, S, V equal to h, s, v,
the hue as it was given. -/
theorem conversions_frame :
    (∀ c : Color, (MakeHSV c).R = c.R ∧ (MakeHSV c).G = c.G ∧ (MakeHSV c).B = c.B
      ∧ (MakeHSV c).A = c.A)
    ∧ (∀ c : Color, (MakeRGB c).H = c.H ∧ (MakeRGB c).S = c.S ∧ (MakeRGB c).V = c.V
      ∧ (MakeRGB c).A = c.A)
    ∧ (∀ a r g b : Nat, (FromARGB a r g b).R = r ∧ (FromARGB a r g b).G = g
      ∧ (FromARGB a r g b).B = b)
    ∧ (∀ (a : Nat) (h : Int) (s v : ℚ), (FromAHSV a h s v).H = h ∧ (FromAHSV a h s v).S = s
      ∧ (FromAHSV a h s v).V = v) := by
  have h1 : ∀ c : Color, (MakeHSV c).R = c.R ∧ (MakeHSV c).G = c.G ∧ (MakeHSV c).B = c.B
      ∧ (MakeHSV c).A = c.A := by
    intro c
    unfold MakeHSV
    simp only
    split_ifs <;> exact ⟨rfl, rfl, rfl, rfl⟩
  have h2 : ∀ c : Color, (MakeRGB c).H = c.H ∧ (MakeRGB c).S = c.S ∧ (MakeRGB c).V = c.V
      ∧ (MakeRGB c).A = c.A := by
    intro c
    unfold MakeRGB
    simp only
    split_ifs <;> exact ⟨rfl, rfl, rfl, rfl⟩
  refine ⟨h1, h2, ?_, ?_⟩
  · intro a r g b
    have := h1 { A := a, R := r, G := g, B := b, H := 0, S := 0, V := 0 }
    exact ⟨this.1, this.2.1, this.2.2.1⟩
  · intro a h s v
    have := h2 { A := a, H := h, S := s, V := v, R := 0, G := 0, B := 0 }
    exact ⟨this.1, this.2.1, this.2.2.1⟩

/-! ## Termination of the loop of regularize -/

/-- C14: totality of RGB to HSV. The loop of `regularize` ends for every hue:
run with more fuel than `⌈-H/360⌉` it returns the value of `regularizeLoop`
after exactly that many additions of 360 (and with less fuel it has not
ended); for a negative hue this number is the integer `⌈-H/360⌉`. In `MakeHSV`
the raw hue is not-a-number exactly on a gray, where `regularize` returns 0
without entering the loop, and otherwise it is at least -60, so that the loop
adds 360 at most once, and the stored hue is the rounding of its result. -/
theorem MakeHSV_loop_terminates :
    (∀ (H : ℚ) (fuel : Nat), (⌈-H / 360⌉).toNat < fuel →
      regularizeIter fuel H = some (regularizeLoop H, (⌈-H / 360⌉).toNat))
    ∧ (∀ (H : ℚ) (fuel : Nat), fuel ≤ (⌈-H / 360⌉).toNat → regularizeIter fuel H = none)
    ∧ (∀ H : ℚ, H < 0 → ((⌈-H / 360⌉).toNat : Int) = ⌈-H / 360⌉)
    ∧ (∀ c : Color, rawHue c = none ↔ (c.R = c.G ∧ c.G = c.B))
    ∧ regularize none = 0
    ∧ (∀ (c : Color) (h : ℚ), rawHue c = some h →
        -60 ≤ h ∧ (⌈-h / 360⌉).toNat ≤ 1
        ∧ regularizeIter 2 h = some (regularize (rawHue c), (⌈-h / 360⌉).toNat)
        ∧ (MakeHSV c).H = Int.tmod (round (regularize (rawHue c))) 360) := by
  refine ⟨fun H fuel h => regularizeIter_of_lt fuel H h,
    fun H fuel h => regularizeIter_of_le fuel H h, ?_, rawHue_eq_none_iff, rfl, ?_⟩
  · intro H hH
    have h2 : 0 < ⌈-H / 360⌉ := Int.ceil_pos.mpr (div_pos (by linarith) (by norm_num))
    omega
  · intro c h hr
    have hge := rawHue_ge c h hr
    have ht := turns_le_one hge
    refine ⟨hge, ht, ?_, ?_⟩
    · rw [hr]
      exact regularizeIter_of_lt 2 h (by omega)
    · apply MakeHSV_H_of_chromatic
      intro hg
      rw [(rawHue_eq_none_iff c).mpr hg] at hr
      exact absurd hr (by simp)

/-- Witness for C14 at the hue -800: three additions of 360, with fuel 5. -/
theorem MakeHSV_loop_terminates_witness :
    regularizeIter 5 (-800) = some (regularizeLoop (-800), (⌈-(-800 : ℚ) / 360⌉).toNat) :=
  MakeHSV_loop_terminates.1 (-800) 5 (by
    have h : ⌈-(-800 : ℚ) / 360⌉ = 3 := by
      rw [Int.ceil_eq_iff]; norm_num
    rw [h]; decide)

/-! ## The round trip: extremes and the bound 2 -/

/-- C15: the round trip reproduces the extreme channels exactly. For 8-bit r,
g, b and c = `FromRGB(r,g,b)` followed by `MakeRGB`, the largest of c.R, c.G,
c.B is the largest of r, g, b and the smallest is the smallest; and every
channel that is the largest or the smallest of r, g, b comes back unchanged, so
that only the middle channel can move. -/
theorem roundtrip_extremes_exact (r g b : Nat) (hr : r < 256) (hg : g < 256) (hb : b < 256) :
    max (MakeRGB (FromRGB r g b)).R (max (MakeRGB (FromRGB r g b)).G (MakeRGB (FromRGB r g b)).B)
      = max r (max g b)
    ∧ min (MakeRGB (FromRGB r g b)).R (min (MakeRGB (FromRGB r g b)).G (MakeRGB (FromRGB r g b)).B)
      = min r (min g b)
    ∧ (r = max r (max g b) ∨ r = min r (min g b) → (MakeRGB (FromRGB r g b)).R = r)
    ∧ (g = max r (max g b) ∨ g = min r (min g b) → (MakeRGB (FromRGB r g b)).G = g)
    ∧ (b = max r (max g b) ∨ b = min r (min g b) → (MakeRGB (FromRGB r g b)).B = b) :=
  ⟨(roundtrip_max_min r g b hr hg hb 0 0 0 255).1, (roundtrip_max_min r g b hr hg hb 0 0 0 255).2,
    roundtrip_positions r g b hr hg hb 0 0 0 255⟩

/-- Witness for C15 at (200,100,50): R = 200 and B = 50 come back unchanged. -/
theorem roundtrip_extremes_exact_witness :
    (MakeRGB (FromRGB 200 100 50)).R = 200 ∧ (MakeRGB (FromRGB 200 100 50)).B = 50 :=
  ⟨(roundtrip_extremes_exact 200 100 50 (by decide) (by decide) (by decide)).2.2.1
      (Or.inl (by decide)),
    (roundtrip_extremes_exact 200 100 50 (by decide) (by decide) (by decide)).2.2.2.2
      (Or.inr (by decide))⟩

/-- C16: the round trip error is at most 2, and 2 is attained. For 8-bit r, g,
b and c = `FromRGB(r,g,b)` followed by `MakeRGB`, each of |c.R - r|, |c.G - g|,
|c.B - b| is at most 2. At (255,2,0) the raw hue 60 * 2/255 = 8/17 rounds to
H = 0, the round trip gives (255,0,0), and the error on G is exactly 2. -/
theorem roundtrip_error_two_attained (r g b : Nat) (hr : r < 256) (hg : g < 256)
    (hb : b < 256) :
    (chanDist (MakeRGB (FromRGB r g b)).R r ≤ 2
      ∧ chanDist (MakeRGB (FromRGB r g b)).G g ≤ 2
      ∧ chanDist (MakeRGB (FromRGB r g b)).B b ≤ 2)
    ∧ (rawHue { R := 255, G := 2, B := 0, H := 0, S := 0, V := 0, A := 255 } = some (8 / 17)
      ∧ round (8 / 17) = 0 ∧ (FromRGB 255 2 0).H = 0)
    ∧ ((MakeRGB (FromRGB 255 2 0)).R = 255 ∧ (MakeRGB (FromRGB 255 2 0)).G = 0
      ∧ (MakeRGB (FromRGB 255 2 0)).B = 0)
    ∧ chanDist (MakeRGB (FromRGB 255 2 0)).G 2 = 2 := by
  refine ⟨roundtrip_MakeHSV_MakeRGB r g b hr hg hb 0 0 0 255,
    ⟨rawHue_255_2_0, round_eq_of_nonneg (by norm_num) (by norm_num) (by norm_num), ?_⟩, ?_, ?_⟩
  · rw [FromRGB_255_2_0]
  · rw [roundtrip_255_2_0]; exact ⟨rfl, rfl, rfl⟩
  · rw [roundtrip_255_2_0]; decide

/-- Witness for C16 at (200,100,50). -/
theorem roundtrip_error_two_attained_witness :
    chanDist (MakeRGB (FromRGB 200 100 50)).R 200 ≤ 2
      ∧ chanDist (MakeRGB (FromRGB 200 100 50)).G 100 ≤ 2
      ∧ chanDist (MakeRGB (FromRGB 200 100 50)).B 50 ≤ 2 :=
  (roundtrip_error_two_attained 200 100 50 (by decide) (by decide) (by decide)).1

/-! ## The arc of the hue -/

/-- C17: the hue of `MakeHSV` lies in the arc of the dominant channel. For a
colour with max > min: if R is the maximum, H is in [0,60] or [300,359]; else if
G is the maximum, H is in [60,180]; else H is in [180,300]. The raw hue is the
formula of the first channel, in the order R, G, B, that equals the maximum;
when two channels tie for the maximum their formulas agree modulo 360: both 60
for R = G, both 180 for G = B, and -60 and 300 for R = B, which `regularize`
both takes to 300. -/
theorem MakeHSV_hue_arc (c : Color) (hne : min c.R (min c.G c.B) < max c.R (max c.G c.B)) :
    (c.G ≤ c.R ∧ c.B ≤ c.R →
      (0 ≤ (MakeHSV c).H ∧ (MakeHSV c).H ≤ 60) ∨ (300 ≤ (MakeHSV c).H ∧ (MakeHSV c).H ≤ 359))
    ∧ (¬ (c.G ≤ c.R ∧ c.B ≤ c.R) ∧ c.R ≤ c.G ∧ c.B ≤ c.G →
      60 ≤ (MakeHSV c).H ∧ (MakeHSV c).H ≤ 180)
    ∧ (¬ (c.G ≤ c.R ∧ c.B ≤ c.R) ∧ ¬ (c.R ≤ c.G ∧ c.B ≤ c.G) →
      180 ≤ (MakeHSV c).H ∧ (MakeHSV c).H ≤ 300)
    ∧ rawHue c = (if maxVal [c.R, c.G, c.B] = (c.R : ℚ) then hueFromR c
        else if maxVal [c.R, c.G, c.B] = (c.G : ℚ) then hueFromG c else hueFromB c)
    ∧ (c.R = c.G ∧ c.B < c.R → hueFromR c = some 60 ∧ hueFromG c = some 60)
    ∧ (c.G = c.B ∧ c.R < c.G → hueFromG c = some 180 ∧ hueFromB c = some 180)
    ∧ (c.R = c.B ∧ c.G < c.R → hueFromR c = some (-60) ∧ hueFromB c = some 300
        ∧ regularize (some (-60)) = 300 ∧ regularize (some 300) = 300) := by
  have hng : ¬ (c.R = c.G ∧ c.G = c.B) := by omega
  have hc := MakeHSV_H_cases c hng
  have ht := hue_formulas_at_ties c
  refine ⟨?_, ?_, ?_, rawHue_eq_branches c, ht.1, ht.2.1, ?_⟩
  · intro hmax
    rcases hc with h | h | h | h | h | h <;> omega
  · intro hmax
    rcases hc with h | h | h | h | h | h <;> omega
  · intro hmax
    rcases hc with h | h | h | h | h | h <;> omega
  · intro htie
    refine ⟨(ht.2.2 htie).1, (ht.2.2 htie).2, ?_, ?_⟩
    · have := @regularizeLoop_of_neg_of_ge (-60) (by norm_num) (by norm_num)
      simp only [regularize, this]; norm_num
    · exact regularizeLoop_of_nonneg (by norm_num)

/-- Witness for C17 at (200,100,50): R is the maximum. -/
theorem MakeHSV_hue_arc_witness :
    (0 ≤ (MakeHSV { R := 200, G := 100, B := 50, H := 0, S := 0, V := 0, A := 255 }).H
      ∧ (MakeHSV { R := 200, G := 100, B := 50, H := 0, S := 0, V := 0, A := 255 }).H ≤ 60)
    ∨ (300 ≤ (MakeHSV { R := 200, G := 100, B := 50, H := 0, S := 0, V := 0, A := 255 }).H
      ∧ (MakeHSV { R := 200, G := 100, B := 50, H := 0, S := 0, V := 0, A := 255 }).H ≤ 359) :=
  (MakeHSV_hue_arc { R := 200, G := 100, B := 50, H := 0, S := 0, V := 0, A := 255 }
    (by decide)).1 (by decide)

/-! ## HSV to RGB in range -/

/-- C18: for a hue in [0,359], S in (0,1] and V in [0,1], after `MakeRGB` the
largest of R, G, B is round(V * 255) and the smallest is round(V * (1 - S) * 255);
every channel lies between the two; and no level wraps when it is narrowed to
eight bits, the two extremes lying in [0,255]. -/
theorem MakeRGB_in_range_bracket (c : Color) (hH0 : 0 ≤ c.H) (hH1 : c.H ≤ 359)
    (hS0 : 0 < c.S) (hS1 : c.S ≤ 1) (hV0 : 0 ≤ c.V) (hV1 : c.V ≤ 1) :
    (((max (MakeRGB c).R (max (MakeRGB c).G (MakeRGB c).B) : Nat) : Int) = round (c.V * 255)
      ∧ ((min (MakeRGB c).R (min (MakeRGB c).G (MakeRGB c).B) : Nat) : Int)
          = round (c.V * (1 - c.S) * 255))
    ∧ ((round (c.V * (1 - c.S) * 255) ≤ ((MakeRGB c).R : Int)
          ∧ ((MakeRGB c).R : Int) ≤ round (c.V * 255))
      ∧ (round (c.V * (1 - c.S) * 255) ≤ ((MakeRGB c).G : Int)
          ∧ ((MakeRGB c).G : Int) ≤ round (c.V * 255))
      ∧ (round (c.V * (1 - c.S) * 255) ≤ ((MakeRGB c).B : Int)
          ∧ ((MakeRGB c).B : Int) ≤ round (c.V * 255)))
    ∧ (0 ≤ round (c.V * (1 - c.S) * 255) ∧ round (c.V * 255) ≤ 255)
    ∧ (((toUint8 (round (c.V * (1 - c.S) * 255)) : Nat) : Int) = round (c.V * (1 - c.S) * 255)
      ∧ ((toUint8 (round (c.V * (1 - c.S * ((c.H : ℚ) / 60 - (⌊(c.H : ℚ) / 60⌋ : Int))) * 255))
            : Nat) : Int)
          = round (c.V * (1 - c.S * ((c.H : ℚ) / 60 - (⌊(c.H : ℚ) / 60⌋ : Int))) * 255)
      ∧ ((toUint8 (round (c.V * (1 - c.S * (1 - ((c.H : ℚ) / 60 - (⌊(c.H : ℚ) / 60⌋ : Int))))
            * 255)) : Nat) : Int)
          = round (c.V * (1 - c.S * (1 - ((c.H : ℚ) / 60 - (⌊(c.H : ℚ) / 60⌋ : Int)))) * 255)
      ∧ ((toUint8 (round (c.V * 255)) : Nat) : Int) = round (c.V * 255)) := by
  obtain ⟨b1, b2, b3, b4, b5, b6, b7⟩ := MakeRGB_bracket c hH0 hH1 hS0 hS1 hV0 hV1
  exact ⟨⟨b1, b2⟩, ⟨b3, b4, b5⟩, ⟨b6, b7⟩, MakeRGB_no_wrap c hS0.le hS1 hV0 hV1⟩

/-- Witness for C18 at H = 330, S = 1, V = 1: the largest channel is
round(255) and the smallest round(0). -/
theorem MakeRGB_in_range_bracket_witness :
    ((max (MakeRGB { R := 0, G := 0, B := 0, H := 330, S := 1, V := 1, A := 255 }).R
        (max (MakeRGB { R := 0, G := 0, B := 0, H := 330, S := 1, V := 1, A := 255 }).G
          (MakeRGB { R := 0, G := 0, B := 0, H := 330, S := 1, V := 1, A := 255 }).B) : Nat) : Int)
      = round ((1 : ℚ) * 255)
    ∧ ((min (MakeRGB { R := 0, G := 0, B := 0, H := 330, S := 1, V := 1, A := 255 }).R
        (min (MakeRGB { R := 0, G := 0, B := 0, H := 330, S := 1, V := 1, A := 255 }).G
          (MakeRGB { R := 0, G := 0, B := 0, H := 330, S := 1, V := 1, A := 255 }).B) : Nat) : Int)
      = round ((1 : ℚ) * (1 - 1) * 255) :=
  (MakeRGB_in_range_bracket { R := 0, G := 0, B := 0, H := 330, S := 1, V := 1, A := 255 }
    (by decide) (by decide) (by norm_num) (by norm_num) (by norm_num) (by norm_num)).1

/-! ## regularize and the floored modulo -/

/-- C19 (refuted as stated): `regularize` is not the floored modulo at the hue
400. It returns 400 unchanged (no addition takes place, in `float64` as in
exact arithmetic), where 400 - 360 * floor(400/360) is 40; 400 is not below
360. -/
theorem regularize_400_not_floored_mod :
    regularize64 1 (some 400) = some 400
    ∧ regularize (some 400) = 400
    ∧ ¬ (∃ fuel : Nat,
          regularize64 fuel (some 400) = some (400 - 360 * ((⌊(400 : ℚ) / 360⌋ : Int) : ℚ)))
    ∧ ¬ ((400 : ℚ) < 360) := by
  have hf : ⌊(400 : ℚ) / 360⌋ = 1 := by
    rw [Int.floor_eq_iff]; norm_num
  refine ⟨regularizeIter64_of_nonneg 0 (by norm_num), regularizeLoop_of_nonneg (by norm_num),
    ?_, by norm_num⟩
  rintro ⟨fuel, h⟩
  rw [hf] at h
  cases fuel with
  | zero => simp [regularize64, regularizeIter64] at h
  | succ n =>
    have h2 : regularize64 (n + 1) (some 400) = some 400 :=
      regularizeIter64_of_nonneg n (by norm_num)
    rw [h2] at h
    norm_num at h

/-- C19 (amended): `regularize`, with its addition in `float64`, is a floored
modulo for one turn only. Not-a-number maps to 0. A hue h ≥ 0, also one from
360 on, is returned unchanged. For -360 ≤ h < 0 one addition ends the loop and
the result is the `float64` sum h + 360: it lies in [0,360] and is within 2^-45
of h - 360 * floor(h/360); for h = -2^-60 it is 360 itself. Whenever the loop
ends on a negative hue the result lies in [0,360]. From -10^19 the loop does not
end, the sum being -10^19 again. A hue of 0 is returned as 0: the loop turns
negative hues only, where the comment above the function speaks of a hue of 0
or less. -/
theorem regularize64_one_turn_floored_mod (h : ℚ) (fuel : Nat) :
    regularize64 fuel none = some 0
    ∧ (0 ≤ h → regularize64 (fuel + 1) (some h) = some h)
    ∧ (-360 ≤ h → h < 0 →
        regularize64 (fuel + 2) (some h) = some (fl64 (h + 360))
        ∧ 0 ≤ fl64 (h + 360) ∧ fl64 (h + 360) ≤ 360
        ∧ h - 360 * ((⌊h / 360⌋ : Int) : ℚ) = h + 360
        ∧ |fl64 (h + 360) - (h - 360 * ((⌊h / 360⌋ : Int) : ℚ))| ≤ 1 / 2 ^ 45)
    ∧ (∀ r : ℚ, h < 0 → regularize64 fuel (some h) = some r → 0 ≤ r ∧ r ≤ 360)
    ∧ regularize64 (fuel + 2) (some (-(1 / 2 ^ 60))) = some 360
    ∧ regularize64 fuel (some (-10 ^ 19)) = none
    ∧ regularize64 (fuel + 1) (some 0) = some 0 := by
  refine ⟨rfl, fun h0 => regularizeIter64_of_nonneg fuel h0, ?_,
    fun r h0 hr => regularizeIter64_mem fuel h r h0 hr, ?_, regularizeIter64_stuck fuel,
    regularizeIter64_of_nonneg fuel le_rfl⟩
  · intro h1 h0
    have hfl := floor_div_360_of_neg h1 h0
    have he : h - 360 * ((⌊h / 360⌋ : Int) : ℚ) = h + 360 := by
      rw [hfl]; push_cast; ring
    refine ⟨regularizeIter64_one_turn fuel h1 h0, fl64_nonneg (by linarith),
      fl64_le_360 (by linarith), he, ?_⟩
    rw [he]
    apply abs_fl64_sub_le_of_lt_512
    rw [abs_lt]
    constructor <;> linarith
  · have := @regularizeIter64_one_turn fuel (-(1 / 2 ^ 60)) (by norm_num) (by norm_num)
    rw [fl64_below_360] at this
    exact this

/-- Witness for C19 (amended) at the hue -30, which one addition takes to the
`float64` sum -30 + 360. -/
theorem regularize64_one_turn_floored_mod_witness :
    regularize64 (0 + 2) (some (-30)) = some (fl64 (-30 + 360))
    ∧ 0 ≤ fl64 (-30 + 360) ∧ fl64 (-30 + 360) ≤ 360
    ∧ (-30 : ℚ) - 360 * ((⌊(-30 : ℚ) / 360⌋ : Int) : ℚ) = -30 + 360
    ∧ |fl64 (-30 + 360) - ((-30 : ℚ) - 360 * ((⌊(-30 : ℚ) / 360⌋ : Int) : ℚ))| ≤ 1 / 2 ^ 45 :=
  (regularize64_one_turn_floored_mod (-30) 0).2.2.1 (by norm_num) (by norm_num)

/-! ## Rounding -/

/-- C20 (refuted as stated): `round` is not always within 1/2 of its
argument. At 0.49999999999999994 = 1/2 - 2^-54 the `float64` sum with 0.5 is
1, so that `round` returns 1, at distance 1/2 + 2^-54. -/
theorem round64_not_within_half :
    ¬ (|((round64 (1/2 - 1/2^54) : Int) : ℚ) - (1/2 - 1/2^54)| ≤ 1/2) := by
  rw [round64_below_half]
  norm_num
  rw [abs_of_pos (by norm_num)]
  norm_num

/-- C20 (amended): `round` is floor(n + 0.5) for n ≥ 0 and ceil(n - 0.5) for
n < 0, the sum being rounded to `float64`. For n of magnitude at most 2^62,
inside the range of `int`: its distance to n is at most 1/2 plus the rounding
error of the sum, and round(-n) = -round(n). When the sum is
exact, `round` is the nearest integer with ties away from zero: the distance is
at most 1/2, and at k + 1/2, for an integer k of magnitude below 2^52, the
result is k + 1 for k ≥ 0 and k for k < 0 (1, -1, 3, -3 at 1/2, -1/2, 5/2,
-5/2). When the sum is rounded the farther integer can result:
round(0.49999999999999994) = 1 and round(2^52 + 1) = 2^52 + 2. -/
theorem round64_half_away_from_zero :
    (∀ n : ℚ, |n| ≤ 2 ^ 62 → round64 (-n) = -round64 n)
    ∧ (∀ n : ℚ, |n| ≤ 2 ^ 62 → 0 ≤ n →
        |(round64 n : ℚ) - n| ≤ 1/2 + |fl64 (n + 1/2) - (n + 1/2)|)
    ∧ (∀ n : ℚ, |n| ≤ 2 ^ 62 → n < 0 →
        |(round64 n : ℚ) - n| ≤ 1/2 + |fl64 (n - 1/2) - (n - 1/2)|)
    ∧ (∀ n : ℚ, |n| ≤ 2 ^ 62 →
        (0 ≤ n → fl64 (n + 1/2) = n + 1/2) → (n < 0 → fl64 (n - 1/2) = n - 1/2) →
        round64 n = round n ∧ |(round64 n : ℚ) - n| ≤ 1/2)
    ∧ (∀ k : Int, |k| < 2 ^ 52 → round64 ((k : ℚ) + 1/2) = if 0 ≤ k then k + 1 else k)
    ∧ (round64 (1/2) = 1 ∧ round64 (-(1/2)) = -1 ∧ round64 (5/2) = 3 ∧ round64 (-(5/2)) = -3)
    ∧ (round64 (1/2 - 1/2^54) = 1 ∧ round64 (2^52 + 1) = 2^52 + 2) := by
  refine ⟨fun n _ => round64_neg n, fun n _ h => abs_round64_sub_le_of_nonneg h,
    fun n _ h => abs_round64_sub_le_of_neg h, ?_, round64_tie, ⟨?_, ?_, ?_, ?_⟩,
    round64_below_half, round64_above_two_pow_52⟩
  · intro n _ h1 h2
    have e := round64_eq_round_of_exact n h1 h2
    rw [e]
    exact ⟨rfl, abs_round_sub_le n⟩
  · have := round64_tie 0 (by norm_num); simpa using this
  · have := round64_tie (-1) (by norm_num); norm_num at this; exact this
  · have := round64_tie 2 (by norm_num); norm_num at this; exact this
  · have := round64_tie (-3) (by norm_num); norm_num at this; exact this

/-- Witness for C20 (amended) at the tie 7/2, where both sums are exact. -/
theorem round64_half_away_from_zero_witness :
    round64 (((3 : Int) : ℚ) + 1/2) = if (0 : Int) ≤ 3 then 3 + 1 else 3 :=
  round64_half_away_from_zero.2.2.2.2.1 3 (by norm_num)

end mscolor
